import Mathlib

/-!
Inventory management system: product codec, product store and credential store.

A shallow embedding of `src/inventory.cpp`.

* A byte is a `Fin 256`; a `std::string` is a list of bytes, ordered
  lexicographically by unsigned byte value (what `std::less<std::string>` does).
* `size_t` is 64 bits wide and `int` is 32 bits wide, two's complement, both
  written little-endian, as the persisted layout fixes them.  Machine integers
  are `Nat`/`Int` with an explicit reduction modulo `2 ^ w` where they are written.
* A `double` is carried as its 64-bit IEEE-754 pattern; the only operation on it
  that the store needs is the comparison `x < 0.0`.
* `std::map<std::string, Product>` is a list of entries in strictly ascending
  key order.
* An input stream is the list of bytes not yet consumed; a read that comes up
  short sets the fail bit, which is `none` here.
* The library's `std::hash<std::string>` is a parameter `hasher` of the
  credential store's functions; `::tolower` is the one of the "C" locale.
-/

set_option autoImplicit false

namespace IMS

/-! ## Bytes, strings and fixed-width integers -/

abbrev Byte := Fin 256

abbrev Str := List Byte

/-- The `w` low-order bytes of `n`, least significant first: what
`out.write(reinterpret_cast<const char*>(&x), sizeof(x))` emits for an unsigned
`x` of `w` bytes on a little-endian machine. -/
def toLE : Nat → Nat → List Byte
  | 0, _ => []
  | w + 1, n => ⟨n % 256, Nat.mod_lt n (by decide)⟩ :: toLE w (n / 256)

/-- The unsigned value of a little-endian byte sequence. -/
def fromLE : List Byte → Nat
  | [] => 0
  | b :: bs => b.val + 256 * fromLE bs

/-- The range of the C++ type `int`. -/
def InInt32 (z : Int) : Prop := -2147483648 ≤ z ∧ z < 2147483648

instance (z : Int) : Decidable (InInt32 z) := by
  unfold InInt32; infer_instance

/-- The 32-bit two's-complement pattern of an `int`. -/
def int32Bits (z : Int) : Nat := (z % 4294967296).toNat

/-- The `int` denoted by a 32-bit pattern. -/
def int32OfBits (n : Nat) : Int :=
  if n % 4294967296 < 2147483648 then (n % 4294967296 : Nat)
  else ((n % 4294967296 : Nat) : Int) - 4294967296

/-- A `double`, as its IEEE-754 binary64 bit pattern. -/
structure Double where
  bits : Nat
deriving DecidableEq, Repr

namespace Double

/-- The sign bit. -/
def sign (x : Double) : Nat := x.bits / 2 ^ 63 % 2

/-- The biased exponent field (11 bits). -/
def expo (x : Double) : Nat := x.bits / 2 ^ 52 % 2 ^ 11

/-- The fraction field (52 bits). -/
def frac (x : Double) : Nat := x.bits % 2 ^ 52

/-- Not-a-number: the exponent is all ones and the fraction is not zero. -/
def isNaN (x : Double) : Bool := x.expo == 2047 && x.frac != 0

/-- Both `+0.0` and `-0.0`. -/
def isZero (x : Double) : Bool := x.bits % 2 ^ 63 == 0

/-- The comparison `x < 0.0`: false for a NaN and for either zero, otherwise the
sign bit. -/
def ltZero (x : Double) : Bool := !x.isNaN && !x.isZero && x.sign == 1

/-- The comparison `x >= 0.0`: false for a NaN, true for either zero, otherwise
the sign bit is clear. -/
def geZero (x : Double) : Bool := !x.isNaN && (x.isZero || x.sign == 0)

/-- The pattern fits the 8 bytes of a `double`. -/
def Valid (x : Double) : Prop := x.bits < 2 ^ 64

instance (x : Double) : Decidable x.Valid := by
  unfold Valid; infer_instance

end Double

/-! ## Ordered maps keyed by strings -/

section Entries

variable {β : Type}

/-- The key order of `std::map<std::string, _>` on the entry list. -/
def EntriesSorted (l : List (Str × β)) : Prop := l.Pairwise (fun a b => a.1 < b.1)

/-- Insert-or-assign into an ascending entry list (`m[k] = v`). -/
def insertEntry (k : Str) (v : β) : List (Str × β) → List (Str × β)
  | [] => [(k, v)]
  | (k', v') :: t =>
    if k < k' then (k, v) :: (k', v') :: t
    else if k = k' then (k, v) :: t
    else (k', v') :: insertEntry k v t

/-- Removal of the entry with key `k`, if there is one. -/
def eraseEntry (k : Str) : List (Str × β) → List (Str × β)
  | [] => []
  | (k', v') :: t => if k = k' then t else (k', v') :: eraseEntry k t

/-- Lookup of the value stored under `k`. -/
def findEntry (k : Str) : List (Str × β) → Option β
  | [] => none
  | (k', v') :: t => if k = k' then some v' else findEntry k t

theorem mem_insertEntry {k : Str} {v : β} {l : List (Str × β)} {e : Str × β}
    (h : e ∈ insertEntry k v l) : e = (k, v) ∨ e ∈ l := by
  induction l with
  | nil => simpa [insertEntry] using h
  | cons hd t ih =>
    obtain ⟨k', v'⟩ := hd
    simp only [insertEntry] at h
    split_ifs at h with h1 h2
    · simpa using h
    · rcases List.mem_cons.mp h with h | h
      · exact Or.inl h
      · exact Or.inr (List.mem_cons_of_mem _ h)
    · rcases List.mem_cons.mp h with h | h
      · exact Or.inr (h ▸ List.mem_cons_self _ _)
      · rcases ih h with h | h
        · exact Or.inl h
        · exact Or.inr (List.mem_cons_of_mem _ h)

theorem insertEntry_sorted (k : Str) (v : β) {l : List (Str × β)} (h : EntriesSorted l) :
    EntriesSorted (insertEntry k v l) := by
  unfold EntriesSorted at *
  induction l with
  | nil => simp [insertEntry]
  | cons hd t ih =>
    obtain ⟨k', v'⟩ := hd
    rw [List.pairwise_cons] at h
    obtain ⟨hhd, ht⟩ := h
    simp only [insertEntry]
    split_ifs with h1 h2
    · refine List.pairwise_cons.mpr ⟨?_, List.pairwise_cons.mpr ⟨hhd, ht⟩⟩
      intro e he
      rcases List.mem_cons.mp he with he | he
      · subst he; exact h1
      · exact lt_trans h1 (hhd e he)
    · subst h2
      exact List.pairwise_cons.mpr ⟨hhd, ht⟩
    · refine List.pairwise_cons.mpr ⟨?_, ih ht⟩
      intro e he
      rcases mem_insertEntry he with he | he
      · subst he
        exact lt_of_le_of_ne (not_lt.mp h1) (Ne.symm h2)
      · exact hhd e he

theorem eraseEntry_sublist (k : Str) (l : List (Str × β)) : (eraseEntry k l).Sublist l := by
  induction l with
  | nil => exact List.Sublist.refl _
  | cons hd t ih =>
    obtain ⟨k', v'⟩ := hd
    simp only [eraseEntry]
    split_ifs
    · exact List.sublist_cons_self _ _
    · exact ih.cons₂ _

theorem eraseEntry_sorted (k : Str) {l : List (Str × β)} (h : EntriesSorted l) :
    EntriesSorted (eraseEntry k l) :=
  List.Pairwise.sublist (eraseEntry_sublist k l) h

end Entries

/-- A `std::map<std::string, β>`: its entries in strictly ascending key order. -/
structure StrMap (β : Type) where
  entries : List (Str × β)
  sorted : EntriesSorted entries

namespace StrMap

variable {β : Type}

theorem ext {a b : StrMap β} (h : a.entries = b.entries) : a = b := by
  cases a; cases b; cases h; rfl

instance [DecidableEq β] : DecidableEq (StrMap β) := fun a b =>
  decidable_of_iff (a.entries = b.entries) ⟨ext, fun h => h ▸ rfl⟩

/-- The empty map. -/
def empty : StrMap β := ⟨[], List.Pairwise.nil⟩

/-- The lookup `m.find(k)`: the mapped value, or `none` for `end()`. -/
def find (m : StrMap β) (k : Str) : Option β := findEntry k m.entries

/-- The assignment `m[k] = v`. -/
def insert (m : StrMap β) (k : Str) (v : β) : StrMap β :=
  ⟨insertEntry k v m.entries, insertEntry_sorted k v m.sorted⟩

/-- The removal `m.erase(it)` of the entry found under `k`. -/
def erase (m : StrMap β) (k : Str) : StrMap β :=
  ⟨eraseEntry k m.entries, eraseEntry_sorted k m.sorted⟩

/-- The entry count `m.size()`. -/
def size (m : StrMap β) : Nat := m.entries.length

end StrMap

/-! ## Input streams -/

/-- The bytes of a stream that have not been read yet. -/
abbrev IStream := List Byte

/-- The call `in.read(buf, n)` on a good stream: the next `n` bytes and the
rest of the stream, or `none` (fail bit set) if fewer than `n` bytes are left. -/
def readBytes (n : Nat) (s : IStream) : Option (List Byte × IStream) :=
  if n ≤ s.length then some (s.take n, s.drop n) else none

/-! ## Product -/

structure Product where
  name : Str
  productID : Str
  quantity : Int
  price : Double
deriving DecidableEq, Repr

namespace Product

/-- The values a C++ `Product` object can hold: string lengths fit `size_t`,
the quantity is an `int`, the price is a 64-bit pattern. -/
def Valid (p : Product) : Prop :=
  p.name.length < 2 ^ 64 ∧ p.productID.length < 2 ^ 64 ∧ InInt32 p.quantity ∧ p.price.Valid

instance (p : Product) : Decidable p.Valid := by
  unfold Valid; infer_instance

/-- The setter `setQuantity`: the success flag and the product afterwards. -/
def setQuantity (p : Product) (qty : Int) : Bool × Product :=
  if qty < 0 then (false, p) else (true, { p with quantity := qty })

/-- The setter `setPrice`: the success flag and the product afterwards. -/
def setPrice (p : Product) (price : Double) : Bool × Product :=
  if price.ltZero then (false, p) else (true, { p with price := price })

/-- The bytes `serialize` appends to the output stream. -/
def serialize (p : Product) : List Byte :=
  toLE 8 p.name.length ++ p.name
    ++ (toLE 8 p.productID.length ++ p.productID)
    ++ toLE 4 (int32Bits p.quantity)
    ++ toLE 8 p.price.bits

/-- The reads of `deserialize`, in source order.  The result is the product
read and the rest of the stream, or `none` when the stream ends up with its fail
bit set (some read came up short: every later read is then a no-op and the
caller drops the object) or `resize` throws on a length it cannot allocate. -/
def deserialize (s : IStream) : Option (Product × IStream) := do
  let (lenBytes, s) ← readBytes 8 s
  let nameLen := fromLE lenBytes
  let (name, s) ← readBytes nameLen s
  let (lenBytes, s) ← readBytes 8 s
  let idLen := fromLE lenBytes
  let (productID, s) ← readBytes idLen s
  let (qtyBytes, s) ← readBytes 4 s
  let (priceBytes, s) ← readBytes 8 s
  pure (⟨name, productID, int32OfBits (fromLE qtyBytes), ⟨fromLE priceBytes⟩⟩, s)

end Product

/-! ## Inventory -/

/-- The bytes written by the loop `for (pair : products) pair.second.serialize(file)`. -/
def serializeAll : List (Str × Product) → List Byte
  | [] => []
  | e :: t => e.2.serialize ++ serializeAll t

/-- The whole file content `saveToFile` writes: the 8-byte record count, then
every record in key order. -/
def snapshot (m : StrMap Product) : List Byte :=
  toLE 8 m.size ++ serializeAll m.entries

/-- An `Inventory` object together with the file it is bound to: `file` is
what opening `filename` for reading gives (`none` when it cannot be opened),
`writable` says whether opening it for writing succeeds. -/
structure Inventory where
  products : StrMap Product
  file : Option (List Byte)
  writable : Bool
deriving DecidableEq

namespace Inventory

/-- The helper `isUniqueID`. -/
def isUniqueID (inv : Inventory) (id : Str) : Bool := (inv.products.find id).isNone

/-- The method `saveToFile`: the file is truncated and rewritten when it can
be opened, and left alone otherwise. -/
def saveToFile (inv : Inventory) : Bool × Inventory :=
  if inv.writable then (true, { inv with file := some (snapshot inv.products) })
  else (false, inv)

/-- The record loop of `loadFromFile`, `count` iterations from stream `s`
with `m` the map so far: the return value of `loadFromFile` and the map. -/
def loadLoop : Nat → IStream → StrMap Product → Bool × StrMap Product
  | 0, _, m => (true, m)
  | count + 1, s, m =>
    match Product.deserialize s with
    | none => (false, m)
    | some (product, s') => loadLoop count s' (m.insert product.productID product)

/-- The method `loadFromFile`. -/
def loadFromFile (inv : Inventory) : Bool × Inventory :=
  match inv.file with
  | none => (true, inv)
  | some bytes =>
    match readBytes 8 bytes with
    | none => (false, inv)
    | some (countBytes, s) =>
      let r := loadLoop (fromLE countBytes) s StrMap.empty
      (r.1, { inv with products := r.2 })

/-- The constructor `Inventory(filename)`: an empty map, then `loadFromFile`. -/
def construct (file : Option (List Byte)) (writable : Bool) : Inventory :=
  (loadFromFile ⟨StrMap.empty, file, writable⟩).2

/-- The method `addProduct`. -/
def addProduct (inv : Inventory) (product : Product) : Bool × Inventory :=
  if !inv.isUniqueID product.productID then (false, inv)
  else if product.productID.isEmpty || product.name.isEmpty then (false, inv)
  else
    (true, (saveToFile { inv with products := inv.products.insert product.productID product }).2)

/-- The method `updateProduct`.  The two setters act on the object inside
the map, one after the other; the second is not called when the first fails. -/
def updateProduct (inv : Inventory) (id : Str) (newQuantity : Int) (newPrice : Double) :
    Bool × Inventory :=
  match inv.products.find id with
  | none => (false, inv)
  | some product =>
    let r1 := product.setQuantity newQuantity
    let inv1 := { inv with products := inv.products.insert id r1.2 }
    if !r1.1 then (false, inv1)
    else
      let r2 := r1.2.setPrice newPrice
      let inv2 := { inv1 with products := inv1.products.insert id r2.2 }
      if !r2.1 then (false, inv2)
      else (true, (saveToFile inv2).2)

/-- The method `deleteProduct`. -/
def deleteProduct (inv : Inventory) (id : Str) : Bool × Inventory :=
  match inv.products.find id with
  | none => (false, inv)
  | some _ => (true, (saveToFile { inv with products := inv.products.erase id }).2)

end Inventory

/-! ## Call sequences -/

/-- One mutating call on an `Inventory`. -/
inductive Op where
  | add (product : Product)
  | update (id : Str) (newQuantity : Int) (newPrice : Double)
  | delete (id : Str)
deriving DecidableEq

/-- The arguments are values of their C++ types. -/
def Op.Valid : Op → Prop
  | .add product => product.Valid
  | .update id newQuantity newPrice => id.length < 2 ^ 64 ∧ InInt32 newQuantity ∧ newPrice.Valid
  | .delete id => id.length < 2 ^ 64

instance (o : Op) : Decidable o.Valid := by
  cases o <;> unfold Op.Valid <;> infer_instance

/-- The call an `Op` stands for. -/
def step (inv : Inventory) : Op → Bool × Inventory
  | .add product => inv.addProduct product
  | .update id newQuantity newPrice => inv.updateProduct id newQuantity newPrice
  | .delete id => inv.deleteProduct id

/-- The state after a sequence of calls, whatever each of them returned. -/
def run (inv : Inventory) (ops : List Op) : Inventory :=
  ops.foldl (fun i o => (step i o).2) inv

/-! ## Reading a snapshot, record by record -/

/-- All `count` records of a stream, or `none` if one of them cannot be read
in full. -/
def decodeRecords : Nat → IStream → Option (List Product)
  | 0, _ => some []
  | count + 1, s =>
    match Product.deserialize s with
    | none => none
    | some (product, s') => (decodeRecords count s').map (fun ps => product :: ps)

/-- The records of a stream, at most `count`, that precede the first one that
cannot be read in full. -/
def decodedPrefix : Nat → IStream → List Product
  | 0, _ => []
  | count + 1, s =>
    match Product.deserialize s with
    | none => []
    | some (product, s') => product :: decodedPrefix count s'

/-- A truncated snapshot: the 8-byte count is incomplete, or fewer complete
records follow it than it declares. -/
def Truncated (bytes : List Byte) : Prop :=
  bytes.length < 8 ∨ decodeRecords (fromLE (bytes.take 8)) (bytes.drop 8) = none

instance (bytes : List Byte) : Decidable (Truncated bytes) := by
  unfold Truncated; infer_instance

/-- The map built by assigning each product under its own ID, first to last. -/
def mapOfProducts (ps : List Product) : StrMap Product :=
  ps.foldl (fun m p => m.insert p.productID p) StrMap.empty

/-- What every store built by the program satisfies: each record sits under
its own ID and holds values of its C++ field types. -/
def StoreOK (m : StrMap Product) : Prop :=
  ∀ e ∈ m.entries, e.2.productID = e.1 ∧ e.2.Valid

instance (m : StrMap Product) : Decidable (StoreOK m) := by
  unfold StoreOK; infer_instance

/-- Neither field is negative, in the sense of the checks the setters make:
the quantity is not below 0 and `price < 0.0` is false. -/
def NonNegative (p : Product) : Prop := 0 ≤ p.quantity ∧ p.price.ltZero = false

instance (p : Product) : Decidable (NonNegative p) := by
  unfold NonNegative; infer_instance

/-- The precondition under which `addProduct` stores no negative number: on an
`add`, the product's quantity is not below 0 and its price does not compare
below 0.0; any `update` or `delete`. -/
def Op.AddsNonNegative : Op → Prop
  | .add product => NonNegative product
  | .update _ _ _ => True
  | .delete _ => True

instance (o : Op) : Decidable o.AddsNonNegative := by
  cases o <;> unfold Op.AddsNonNegative <;> infer_instance

/-- Every record of the map sits under its own productID. -/
def KeysAreIDs (m : StrMap Product) : Prop :=
  ∀ e ∈ m.entries, e.2.productID = e.1

instance (m : StrMap Product) : Decidable (KeysAreIDs m) := by
  unfold KeysAreIDs; infer_instance

/-! ## Queries on the inventory -/

/-- The function `::tolower` on one `char` in the "C" locale, which the
program never changes: the letters `A` to `Z` move to `a` to `z`, every other
byte stays. -/
def toLower (c : Byte) : Byte :=
  if 65 ≤ c.val ∧ c.val ≤ 90 then ⟨(c.val + 32) % 256, Nat.mod_lt _ (by decide)⟩ else c

/-- The call `transform(s.begin(), s.end(), s.begin(), ::tolower)`. -/
def toLowerStr (s : Str) : Str := s.map toLower

/-- The call `hay.find(needle)`: the first position at which `needle` starts
in `hay`, or `none` for `npos`. -/
def strFind (needle : Str) : Str → Option Nat
  | [] => if needle.isPrefixOf [] then some 0 else none
  | c :: t =>
    if needle.isPrefixOf (c :: t) then some 0
    else (strFind needle t).map (fun i => i + 1)

/-- The loop of `searchByName` over the map entries in key order, with
`lowerName` the lower-cased query: the entries whose record is pushed onto
`results`, in the order they are pushed. -/
def searchLoop (lowerName : Str) : List (Str × Product) → List (Str × Product)
  | [] => []
  | e :: t =>
    if (strFind lowerName (toLowerStr e.2.name)).isSome then e :: searchLoop lowerName t
    else searchLoop lowerName t

/-- The method `isLowStock(threshold)`. -/
def Product.isLowStock (p : Product) (threshold : Int) : Bool :=
  decide (p.quantity ≤ threshold)

/-- The default argument of `isLowStock` and of `displayLowStock`. -/
def defaultThreshold : Int := 10

/-- The loop of `displayLowStock` over the map entries in key order: the
entries whose record is displayed, in the order they are displayed. -/
def lowStockLoop (threshold : Int) : List (Str × Product) → List (Str × Product)
  | [] => []
  | e :: t =>
    if e.2.isLowStock threshold then e :: lowStockLoop threshold t
    else lowStockLoop threshold t

namespace Inventory

/-- The method `searchByID`: the record the returned pointer points to
(`none` for `nullptr`), and the object afterwards. -/
def searchByID (inv : Inventory) (id : Str) : Option Product × Inventory :=
  match inv.products.find id with
  | some product => (some product, inv)
  | none => (none, inv)

/-- The method `searchByName`: the map entries the returned pointers point
into, in the order of the vector. -/
def searchByName (inv : Inventory) (name : Str) : List (Str × Product) :=
  searchLoop (toLowerStr name) inv.products.entries

/-- The method `displayLowStock(threshold)`, as the rows of its report: the
map entries whose record it displays, in order. -/
def displayLowStock (inv : Inventory) (threshold : Int) : List (Str × Product) :=
  lowStockLoop threshold inv.products.entries

/-- The method `generateLowStockReport`: `displayLowStock()` with the default
threshold. -/
def generateLowStockReport (inv : Inventory) : List (Str × Product) :=
  inv.displayLowStock defaultThreshold

end Inventory

/-! ## Authentication -/

/-- The bytes of a string literal of the source (all of them ASCII). -/
def ascii (s : String) : Str :=
  s.toList.map (fun c => ⟨c.toNat % 256, Nat.mod_lt _ (by decide)⟩)

/-- The call `to_string(n)` for an unsigned `n`: its decimal digits. -/
def decimal (n : Nat) : Str :=
  (Nat.toDigits 10 n).map (fun c => ⟨c.toNat % 256, Nat.mod_lt _ (by decide)⟩)

/-- An `Authentication` object together with the file it is bound to: `file`
is what opening `filename` for reading gives (`none` when it cannot be
opened), `writable` says whether opening it for writing succeeds. -/
structure Authentication where
  users : StrMap Str
  file : Option (List Byte)
  writable : Bool
  currentUser : Str
deriving DecidableEq

/-- What a call leaves behind: its return value, the object afterwards, and
the text it wrote to `cout` and to `cerr`. -/
structure AuthResult where
  result : Bool
  auth : Authentication
  cout : Str
  cerr : Str
deriving DecidableEq

/-- The bytes written by the loop of `saveUsers`. -/
def serializeUsers : List (Str × Str) → List Byte
  | [] => []
  | e :: t =>
    toLE 8 e.1.length ++ e.1 ++ (toLE 8 e.2.length ++ e.2) ++ serializeUsers t

/-- The whole file content `saveUsers` writes: the 8-byte record count, then
every record in key order. -/
def userSnapshot (m : StrMap Str) : List Byte :=
  toLE 8 m.size ++ serializeUsers m.entries

/-- The four reads of one iteration of `loadUsers`, in source order: the
username, the token and the rest of the stream, or `none` when one of the
reads comes up short. -/
def readUser (s : IStream) : Option (Str × Str × IStream) := do
  let (lenBytes, s) ← readBytes 8 s
  let usernameLen := fromLE lenBytes
  let (username, s) ← readBytes usernameLen s
  let (lenBytes, s) ← readBytes 8 s
  let passwordLen := fromLE lenBytes
  let (password, s) ← readBytes passwordLen s
  pure (username, password, s)

/-- The record loop of `loadUsers`, `count` iterations from stream `s` with
`m` the map so far: the map when every record is read in full.  The result is
`none` when a record cannot be read in full: a length is then left
uninitialised or announces more than the file holds, and whether the function
returns false or a `std::string` constructor throws is not fixed by the
source. -/
def loadUsersLoop : Nat → IStream → StrMap Str → Option (StrMap Str)
  | 0, _, m => some m
  | count + 1, s, m =>
    match readUser s with
    | none => none
    | some (username, password, s') => loadUsersLoop count s' (m.insert username password)

namespace Authentication

/-- The method `hashPassword`, with `hasher` the library's
`std::hash<std::string>`, whose values are of type `size_t`. -/
def hashPassword (hasher : Str → Nat) (password : Str) : Str :=
  decimal (hasher password % 2 ^ 64)

/-- The method `saveUsers`. -/
def saveUsers (a : Authentication) : Bool × Authentication :=
  if a.writable then (true, { a with file := some (userSnapshot a.users) })
  else (false, a)

/-- The method `loadUsers`: its return value and the object afterwards, or
`none` where `loadUsersLoop` is. -/
def loadUsers (a : Authentication) : Option (Bool × Authentication) :=
  match a.file with
  | none => some (true, a)
  | some bytes =>
    match readBytes 8 bytes with
    | none => some (false, a)
    | some (countBytes, s) =>
      (loadUsersLoop (fromLE countBytes) s StrMap.empty).map
        (fun m => (true, { a with users := m }))

/-- The method `registerUser`. -/
def registerUser (hasher : Str → Nat) (a : Authentication) (username password : Str) :
    AuthResult :=
  if username.isEmpty || password.isEmpty then
    ⟨false, a, [], ascii "Error: Username and password cannot be empty.\n"⟩
  else if (a.users.find username).isSome then
    ⟨false, a, [], ascii "Error: Username already exists.\n"⟩
  else if password.length < 6 then
    ⟨false, a, [], ascii "Error: Password must be at least 6 characters long.\n"⟩
  else
    ⟨true, (saveUsers { a with users := a.users.insert username (hashPassword hasher password) }).2,
      ascii "User registered successfully!\n", []⟩

/-- The method `login`. -/
def login (hasher : Str → Nat) (a : Authentication) (username password : Str) : AuthResult :=
  match a.users.find username with
  | none => ⟨false, a, [], ascii "Error: Invalid username or password.\n"⟩
  | some token =>
    if token ≠ hashPassword hasher password then
      ⟨false, a, [], ascii "Error: Invalid username or password.\n"⟩
    else
      ⟨true, { a with currentUser := username },
        ascii "Login successful! Welcome, " ++ username ++ ascii "!\n", []⟩

/-- The method `logout`: the object afterwards and the text written to `cout`. -/
def logout (a : Authentication) : Authentication × Str :=
  if !a.currentUser.isEmpty then
    ({ a with currentUser := [] }, ascii "Goodbye, " ++ a.currentUser ++ ascii "!\n")
  else (a, [])

/-- The method `isLoggedIn`. -/
def isLoggedIn (a : Authentication) : Bool := !a.currentUser.isEmpty

/-- The method `getCurrentUser`. -/
def getCurrentUser (a : Authentication) : Str := a.currentUser

/-- The constructor `Authentication(filename)`: empty map and empty current
user, `loadUsers`, then the default account if the map is empty.  The result
is the object and the text written to `cout` and `cerr`, or `none` where
`loadUsers` is. -/
def construct (hasher : Str → Nat) (file : Option (List Byte)) (writable : Bool) :
    Option (Authentication × Str × Str) :=
  match loadUsers ⟨StrMap.empty, file, writable, []⟩ with
  | none => none
  | some (_, a) =>
    if a.users.entries.isEmpty then
      let r := registerUser hasher a (ascii "admin") (ascii "admin123")
      some (r.auth,
        r.cout ++ ascii "Default admin account created (username: admin, password: admin123)\n",
        r.cerr)
    else some (a, [], [])

end Authentication

/-- The strings of a user map fit `size_t` lengths. -/
def UsersOK (m : StrMap Str) : Prop :=
  ∀ e ∈ m.entries, e.1.length < 2 ^ 64 ∧ e.2.length < 2 ^ 64

instance (m : StrMap Str) : Decidable (UsersOK m) := by
  unfold UsersOK; infer_instance

/-- The object after a sequence of `registerUser` calls, each given as its
username and password, whatever each of them returned. -/
def registerAll (hasher : Str → Nat) (a : Authentication) (calls : List (Str × Str)) :
    Authentication :=
  calls.foldl (fun a c => (Authentication.registerUser hasher a c.1 c.2).auth) a

/-! ## Sample values -/

/-- The product named `n` with ID `A`, quantity 5 and price 1.0. -/
def sampleProduct : Product := ⟨[110], [65], 5, ⟨0x3FF0000000000000⟩⟩

/-- A store that holds `sampleProduct` only, bound to a file that does not
exist yet and can be created. -/
def sampleInventory : Inventory := ⟨StrMap.empty.insert [65] sampleProduct, none, true⟩

/-- The double `-1.0`. -/
def minusOne : Double := ⟨0xBFF0000000000000⟩

/-- A quiet NaN. -/
def quietNaN : Double := ⟨0x7FF8000000000000⟩

/-- The double `2.5`. -/
def twoAndAHalf : Double := ⟨0x4004000000000000⟩

/-- A call sequence: add `B`, add `A`, update `A`, delete `B`, add `C`, and a
rejected update of an ID that is not there. -/
def sampleOps : List Op :=
  [ .add ⟨[120], [66], 3, ⟨0⟩⟩,
    .add sampleProduct,
    .update [65] 7 twoAndAHalf,
    .delete [66],
    .add ⟨[121, 122], [67], 0, twoAndAHalf⟩,
    .update [68] 1 twoAndAHalf ]

/-- The string `widget-7`. -/
def widget7 : Str := [119, 105, 100, 103, 101, 116, 45, 55]

/-- The string `WID`. -/
def upperWID : Str := [87, 73, 68]

/-- A store with three records: `A` named `widget-7` with quantity 10, `B`
named `Gadget` with quantity 11, `C` named `MidWidth` with quantity 0. -/
def searchInventory : Inventory :=
  ⟨((StrMap.empty.insert [66] ⟨[71, 97, 100, 103, 101, 116], [66], 11, twoAndAHalf⟩).insert
      [67] ⟨[77, 105, 100, 87, 105, 100, 116, 104], [67], 0, twoAndAHalf⟩).insert
      [65] ⟨widget7, [65], 10, twoAndAHalf⟩,
    none, true⟩

/-- A stand-in for `std::hash<std::string>`: the sum of the bytes, times 31. -/
def sampleHasher (s : Str) : Nat := 31 * (s.map (fun b => b.val)).sum

/-- The string `alice`. -/
def alice : Str := [97, 108, 105, 99, 101]

/-- The string `secret1`. -/
def secret1 : Str := [115, 101, 99, 114, 101, 116, 49]

/-- A credential store without accounts, nobody logged in, bound to a file
that does not exist yet and can be created. -/
def sampleAuth : Authentication := ⟨StrMap.empty, none, true, []⟩

/-- A user map with three accounts, among them one with an empty name and
one with an empty token. -/
def sampleUsers : StrMap Str :=
  ((StrMap.empty.insert alice [49, 50]).insert [] [55]).insert [98, 111, 98] []

/-- A file that declares three records and holds two: `B` in full, then `A`
in full under the name `zz`, then three stray bytes. -/
def brokenFile : List Byte :=
  toLE 8 3 ++ (Product.mk [120] [66] 3 ⟨0⟩).serialize
    ++ (Product.mk [122, 122] [65] (-2) minusOne).serialize ++ [1, 2, 3]

/-! ## Lookup, insertion and removal on entry lists -/

section EntryLemmas

variable {β : Type}

theorem findEntry_insertEntry_self (k : Str) (v : β) (l : List (Str × β)) :
    findEntry k (insertEntry k v l) = some v := by
  induction l with
  | nil => simp [insertEntry, findEntry]
  | cons hd t ih =>
    obtain ⟨k', v'⟩ := hd
    simp only [insertEntry]
    split_ifs with h1 h2
    · simp [findEntry]
    · simp [findEntry]
    · simp [findEntry, h2, ih]

theorem findEntry_insertEntry_ne {k k' : Str} (v : β) (l : List (Str × β)) (h : k' ≠ k) :
    findEntry k' (insertEntry k v l) = findEntry k' l := by
  induction l with
  | nil => simp [insertEntry, findEntry, h]
  | cons hd t ih =>
    obtain ⟨k₀, v₀⟩ := hd
    simp only [insertEntry]
    split_ifs with h1 h2
    · simp [findEntry, h]
    · subst h2; simp [findEntry, h]
    · simp [findEntry, ih]

theorem findEntry_eq_none_of_lt {k : Str} {l : List (Str × β)}
    (h : ∀ e ∈ l, k < e.1) : findEntry k l = none := by
  induction l with
  | nil => rfl
  | cons hd t ih =>
    obtain ⟨k', v'⟩ := hd
    have h1 : k < k' := h (k', v') (List.mem_cons_self _ _)
    simp only [findEntry, if_neg (ne_of_lt h1)]
    exact ih (fun e he => h e (List.mem_cons_of_mem _ he))

theorem findEntry_eraseEntry_self (k : Str) {l : List (Str × β)} (h : EntriesSorted l) :
    findEntry k (eraseEntry k l) = none := by
  unfold EntriesSorted at h
  induction l with
  | nil => rfl
  | cons hd t ih =>
    obtain ⟨k', v'⟩ := hd
    rw [List.pairwise_cons] at h
    simp only [eraseEntry]
    split_ifs with h1
    · subst h1; exact findEntry_eq_none_of_lt h.1
    · simp [findEntry, h1, ih h.2]

theorem findEntry_eraseEntry_ne {k k' : Str} (l : List (Str × β)) (h : k' ≠ k) :
    findEntry k' (eraseEntry k l) = findEntry k' l := by
  induction l with
  | nil => rfl
  | cons hd t ih =>
    obtain ⟨k₀, v₀⟩ := hd
    simp only [eraseEntry]
    split_ifs with h1
    · subst h1; simp [findEntry, h]
    · simp [findEntry, ih]

theorem length_insertEntry_of_none {k : Str} (v : β) {l : List (Str × β)}
    (h : findEntry k l = none) : (insertEntry k v l).length = l.length + 1 := by
  induction l with
  | nil => rfl
  | cons hd t ih =>
    obtain ⟨k', v'⟩ := hd
    simp only [findEntry] at h
    split_ifs at h with h2
    simp only [insertEntry, if_neg h2]
    split_ifs
    · rfl
    · simp [ih h]

theorem mem_of_findEntry {k : Str} {l : List (Str × β)} {w : β}
    (h : findEntry k l = some w) : (k, w) ∈ l := by
  induction l with
  | nil => simp [findEntry] at h
  | cons hd t ih =>
    obtain ⟨k', v'⟩ := hd
    simp only [findEntry] at h
    split_ifs at h with h2
    · cases h; subst h2; exact List.mem_cons_self _ _
    · exact List.mem_cons_of_mem _ (ih h)

theorem findEntry_of_mem {k : Str} {l : List (Str × β)} {w : β}
    (hs : EntriesSorted l) (h : (k, w) ∈ l) : findEntry k l = some w := by
  unfold EntriesSorted at hs
  induction l with
  | nil => simp at h
  | cons hd t ih =>
    obtain ⟨k', v'⟩ := hd
    rw [List.pairwise_cons] at hs
    rcases List.mem_cons.mp h with h | h
    · cases h; simp [findEntry]
    · have hlt : k' < k := hs.1 (k, w) h
      simp only [findEntry, if_neg (ne_of_gt hlt)]
      exact ih hs.2 h

theorem insertEntry_of_some {k : Str} {v : β} {l : List (Str × β)}
    (hs : EntriesSorted l) (h : findEntry k l = some v) : insertEntry k v l = l := by
  unfold EntriesSorted at hs
  induction l with
  | nil => simp [findEntry] at h
  | cons hd t ih =>
    obtain ⟨k', v'⟩ := hd
    rw [List.pairwise_cons] at hs
    simp only [findEntry] at h
    simp only [insertEntry]
    split_ifs at h with h2
    · cases h; subst h2; simp
    · have hlt : k' < k := hs.1 (k, v) (mem_of_findEntry h)
      rw [if_neg (not_lt_of_gt hlt), if_neg h2, ih hs.2 h]

theorem length_insertEntry_of_some {k : Str} (v : β) {l : List (Str × β)} {w : β}
    (hs : EntriesSorted l) (h : findEntry k l = some w) :
    (insertEntry k v l).length = l.length := by
  unfold EntriesSorted at hs
  induction l with
  | nil => simp [findEntry] at h
  | cons hd t ih =>
    obtain ⟨k', v'⟩ := hd
    rw [List.pairwise_cons] at hs
    simp only [findEntry] at h
    simp only [insertEntry]
    split_ifs at h with h2
    · subst h2; simp
    · have hlt : k' < k := hs.1 (k, w) (mem_of_findEntry h)
      rw [if_neg (not_lt_of_gt hlt), if_neg h2]
      simp [ih hs.2 h]

theorem insertEntry_append_of_lt {k : Str} (v : β) {l : List (Str × β)}
    (h : ∀ e ∈ l, e.1 < k) : insertEntry k v l = l ++ [(k, v)] := by
  induction l with
  | nil => rfl
  | cons hd t ih =>
    obtain ⟨k', v'⟩ := hd
    have hlt : k' < k := h (k', v') (List.mem_cons_self _ _)
    simp only [insertEntry, if_neg (not_lt_of_gt hlt), if_neg (ne_of_gt hlt)]
    rw [ih (fun e he => h e (List.mem_cons_of_mem _ he))]
    rfl

theorem length_eraseEntry_of_some {k : Str} {l : List (Str × β)} {w : β}
    (h : findEntry k l = some w) : (eraseEntry k l).length + 1 = l.length := by
  induction l with
  | nil => simp [findEntry] at h
  | cons hd t ih =>
    obtain ⟨k', v'⟩ := hd
    simp only [findEntry] at h
    simp only [eraseEntry]
    split_ifs at h with h2
    · simp [h2]
    · simp [h2, ih h]

theorem insertEntry_insertEntry (k : Str) (a b : β) (l : List (Str × β)) :
    insertEntry k b (insertEntry k a l) = insertEntry k b l := by
  induction l with
  | nil => simp [insertEntry]
  | cons hd t ih =>
    obtain ⟨k', v'⟩ := hd
    by_cases h1 : k < k'
    · simp [insertEntry, h1]
    · by_cases h2 : k = k'
      · subst h2; simp [insertEntry]
      · simp [insertEntry, h1, h2, ih]

theorem entries_ext {l₁ l₂ : List (Str × β)} (h₁ : EntriesSorted l₁) (h₂ : EntriesSorted l₂)
    (h : ∀ k, findEntry k l₁ = findEntry k l₂) : l₁ = l₂ := by
  unfold EntriesSorted at h₁ h₂
  induction l₁ generalizing l₂ with
  | nil =>
    cases l₂ with
    | nil => rfl
    | cons hd t =>
      have := h hd.1
      simp [findEntry] at this
  | cons hd₁ t₁ ih =>
    obtain ⟨k₁, v₁⟩ := hd₁
    cases l₂ with
    | nil =>
      have := h k₁
      simp [findEntry] at this
    | cons hd₂ t₂ =>
      obtain ⟨k₂, v₂⟩ := hd₂
      rw [List.pairwise_cons] at h₁ h₂
      have a := h k₁
      have b := h k₂
      simp only [findEntry, if_true] at a b
      by_cases hk : k₁ = k₂
      · subst hk
        simp only [if_true, Option.some.injEq] at a
        subst a
        congr 1
        apply ih h₁.2 h₂.2
        intro k
        by_cases hkk : k = k₁
        · subst hkk
          rw [findEntry_eq_none_of_lt h₁.1, findEntry_eq_none_of_lt h₂.1]
        · have := h k
          simpa [findEntry, hkk] using this
      · exfalso
        rw [if_neg hk] at a
        rw [if_neg (Ne.symm hk)] at b
        have m₁ : k₂ < k₁ := h₂.1 (k₁, v₁) (mem_of_findEntry a.symm)
        have m₂ : k₁ < k₂ := h₁.1 (k₂, v₂) (mem_of_findEntry b)
        exact lt_asymm m₁ m₂

theorem insertEntry_comm {k₁ k₂ : Str} (v₁ v₂ : β) {l : List (Str × β)}
    (hs : EntriesSorted l) (hk : k₁ ≠ k₂) :
    insertEntry k₂ v₂ (insertEntry k₁ v₁ l) = insertEntry k₁ v₁ (insertEntry k₂ v₂ l) := by
  apply entries_ext
  · exact insertEntry_sorted _ _ (insertEntry_sorted _ _ hs)
  · exact insertEntry_sorted _ _ (insertEntry_sorted _ _ hs)
  · intro k
    by_cases h2 : k = k₂
    · subst h2
      rw [findEntry_insertEntry_self, findEntry_insertEntry_ne _ _ (Ne.symm hk),
        findEntry_insertEntry_self]
    · by_cases h1 : k = k₁
      · subst h1
        rw [findEntry_insertEntry_ne _ _ h2, findEntry_insertEntry_self,
          findEntry_insertEntry_self]
      · rw [findEntry_insertEntry_ne _ _ h2, findEntry_insertEntry_ne _ _ h1,
          findEntry_insertEntry_ne _ _ h1, findEntry_insertEntry_ne _ _ h2]

end EntryLemmas

/-! ## Codec lemmas -/

theorem toLE_length (w n : Nat) : (toLE w n).length = w := by
  induction w generalizing n with
  | zero => rfl
  | succ w ih => simp [toLE, ih]

theorem fromLE_toLE (w n : Nat) : fromLE (toLE w n) = n % 256 ^ w := by
  induction w generalizing n with
  | zero => simp [toLE, fromLE, Nat.mod_one]
  | succ w ih =>
    simp only [toLE, fromLE, ih]
    rw [pow_succ, mul_comm (256 ^ w) 256, Nat.mod_mul]

theorem fromLE_toLE_of_lt (w n : Nat) (h : n < 256 ^ w) : fromLE (toLE w n) = n := by
  rw [fromLE_toLE, Nat.mod_eq_of_lt h]

theorem readBytes_append (xs rest : List Byte) :
    readBytes xs.length (xs ++ rest) = some (xs, rest) := by
  simp [readBytes]

theorem readBytes_toLE (w n : Nat) (rest : List Byte) :
    readBytes w (toLE w n ++ rest) = some (toLE w n, rest) := by
  have h := readBytes_append (toLE w n) rest
  rwa [toLE_length] at h

theorem int32OfBits_int32Bits (z : Int) (h : InInt32 z) : int32OfBits (int32Bits z) = z := by
  unfold InInt32 at h
  unfold int32OfBits int32Bits
  have h0 : (0 : Int) ≤ z % 4294967296 := Int.emod_nonneg _ (by decide)
  have h1 : z % 4294967296 < 4294967296 := Int.emod_lt_of_pos _ (by decide)
  have hm : (z % 4294967296).toNat % 4294967296 = (z % 4294967296).toNat := by
    apply Nat.mod_eq_of_lt; omega
  rw [hm]
  split_ifs with hlt <;> omega

theorem deserialize_serialize_append (p : Product) (rest : List Byte) (h : p.Valid) :
    Product.deserialize (p.serialize ++ rest) = some (p, rest) := by
  obtain ⟨hn, hi, hq, hp⟩ := h
  have e1 : fromLE (toLE 8 p.name.length) = p.name.length :=
    fromLE_toLE_of_lt 8 _ (by simpa using hn)
  have e2 : fromLE (toLE 8 p.productID.length) = p.productID.length :=
    fromLE_toLE_of_lt 8 _ (by simpa using hi)
  have e3 : fromLE (toLE 4 (int32Bits p.quantity)) = int32Bits p.quantity := by
    apply fromLE_toLE_of_lt
    unfold int32Bits
    have h1 : p.quantity % 4294967296 < 4294967296 := Int.emod_lt_of_pos _ (by decide)
    have h0 : (0 : Int) ≤ p.quantity % 4294967296 := Int.emod_nonneg _ (by decide)
    norm_num
    omega
  have e4 : fromLE (toLE 8 p.price.bits) = p.price.bits :=
    fromLE_toLE_of_lt 8 _ (by simpa [Double.Valid] using hp)
  simp only [Product.deserialize, Product.serialize, List.append_assoc, readBytes_toLE,
    Option.bind_eq_bind, Option.some_bind, e1, e2, e3, e4, readBytes_append,
    int32OfBits_int32Bits _ hq, Option.pure_def]

/-! ## Store lemmas -/

theorem storeOK_empty : StoreOK StrMap.empty := by
  intro e he
  simp [StrMap.empty] at he

theorem storeOK_insert {m : StrMap Product} {k : Str} {p : Product}
    (hm : StoreOK m) (hk : p.productID = k) (hp : p.Valid) : StoreOK (m.insert k p) := by
  intro e he
  rcases mem_insertEntry he with h | h
  · subst h; exact ⟨hk, hp⟩
  · exact hm e h

theorem storeOK_erase {m : StrMap Product} (k : Str) (hm : StoreOK m) :
    StoreOK (m.erase k) :=
  fun e he => hm e ((eraseEntry_sublist k m.entries).subset he)

theorem storeOK_of_find {m : StrMap Product} {k : Str} {p : Product}
    (hm : StoreOK m) (h : m.find k = some p) : p.productID = k ∧ p.Valid :=
  hm (k, p) (mem_of_findEntry h)

theorem saveToFile_products (inv : Inventory) : inv.saveToFile.2.products = inv.products := by
  unfold Inventory.saveToFile
  split_ifs <;> rfl

theorem saveToFile_writable (inv : Inventory) : inv.saveToFile.2.writable = inv.writable := by
  unfold Inventory.saveToFile
  split_ifs <;> rfl

theorem saveToFile_file_of_writable (inv : Inventory) (h : inv.writable = true) :
    inv.saveToFile.2.file = some (snapshot inv.products) := by
  unfold Inventory.saveToFile
  rw [if_pos h]

theorem setQuantity_fields (p : Product) (q : Int) :
    (p.setQuantity q).2.name = p.name ∧ (p.setQuantity q).2.productID = p.productID
      ∧ (p.setQuantity q).2.price = p.price := by
  unfold Product.setQuantity
  split_ifs <;> exact ⟨rfl, rfl, rfl⟩

theorem setPrice_fields (p : Product) (r : Double) :
    (p.setPrice r).2.name = p.name ∧ (p.setPrice r).2.productID = p.productID
      ∧ (p.setPrice r).2.quantity = p.quantity := by
  unfold Product.setPrice
  split_ifs <;> exact ⟨rfl, rfl, rfl⟩

theorem setQuantity_valid {p : Product} {q : Int} (hp : p.Valid) (hq : InInt32 q) :
    (p.setQuantity q).2.Valid := by
  unfold Product.setQuantity
  split_ifs
  · exact hp
  · exact ⟨hp.1, hp.2.1, hq, hp.2.2.2⟩

theorem setPrice_valid {p : Product} {r : Double} (hp : p.Valid) (hr : r.Valid) :
    (p.setPrice r).2.Valid := by
  unfold Product.setPrice
  split_ifs
  · exact hp
  · exact ⟨hp.1, hp.2.1, hp.2.2.1, hr⟩

/-- The map `updateProduct` leaves behind, whatever it returns: the record
under `id` after both setters (the second only if the first succeeded). -/
theorem updateProduct_products (inv : Inventory) (id : Str) (q : Int) (r : Double)
    (p : Product) (h : inv.products.find id = some p) :
    (inv.updateProduct id q r).2.products
      = inv.products.insert id
          (if (p.setQuantity q).1 then ((p.setQuantity q).2.setPrice r).2
           else (p.setQuantity q).2) := by
  have hins : ∀ a b : Product,
      (inv.products.insert id a).insert id b = inv.products.insert id b :=
    fun a b => StrMap.ext (insertEntry_insertEntry id a b _)
  simp only [Inventory.updateProduct, h]
  split_ifs with h1 h2 h3 h4 <;>
    simp_all [saveToFile_products, hins]

theorem step_storeOK {inv : Inventory} {o : Op} (hm : StoreOK inv.products) (ho : o.Valid) :
    StoreOK (step inv o).2.products := by
  cases o with
  | add p =>
    simp only [step, Inventory.addProduct]
    split_ifs
    · exact hm
    · exact hm
    · rw [saveToFile_products]; exact storeOK_insert hm rfl ho
  | update id q r =>
    simp only [step]
    cases hf : inv.products.find id with
    | none => simp only [Inventory.updateProduct, hf]; exact hm
    | some p =>
      rw [updateProduct_products inv id q r p hf]
      obtain ⟨hid, hp⟩ := storeOK_of_find hm hf
      obtain ⟨_, hq, hr⟩ := ho
      split_ifs
      · refine storeOK_insert hm ?_ (setPrice_valid (setQuantity_valid hp hq) hr)
        rw [(setPrice_fields _ r).2.1, (setQuantity_fields p q).2.1, hid]
      · refine storeOK_insert hm ?_ (setQuantity_valid hp hq)
        rw [(setQuantity_fields p q).2.1, hid]
  | delete id =>
    simp only [step, Inventory.deleteProduct]
    cases hf : inv.products.find id with
    | none => exact hm
    | some p => simp only [saveToFile_products]; exact storeOK_erase id hm

theorem run_storeOK (ops : List Op) (inv : Inventory) (hm : StoreOK inv.products)
    (ho : ∀ o ∈ ops, o.Valid) : StoreOK (run inv ops).products := by
  induction ops generalizing inv with
  | nil => exact hm
  | cons o t ih =>
    simp only [run, List.foldl_cons]
    exact ih _ (step_storeOK hm (ho o (List.mem_cons_self _ _)))
      (fun x hx => ho x (List.mem_cons_of_mem _ hx))

theorem geZero_not_ltZero (x : Double) (h : x.geZero = true) : x.ltZero = false := by
  unfold Double.geZero at h
  unfold Double.ltZero
  cases h1 : x.isNaN <;> cases h2 : x.isZero <;> simp_all

theorem setQuantity_nonNegative {p : Product} (q : Int) (hp : NonNegative p) :
    NonNegative (p.setQuantity q).2 := by
  unfold Product.setQuantity
  split_ifs with h
  · exact hp
  · exact ⟨not_lt.mp h, hp.2⟩

theorem setPrice_nonNegative {p : Product} (r : Double) (hp : NonNegative p) :
    NonNegative (p.setPrice r).2 := by
  unfold Product.setPrice
  split_ifs with h
  · exact hp
  · exact ⟨hp.1, by simpa using h⟩

theorem step_nonNegative {inv : Inventory} {o : Op}
    (hm : ∀ e ∈ inv.products.entries, NonNegative e.2) (ho : o.AddsNonNegative) :
    ∀ e ∈ (step inv o).2.products.entries, NonNegative e.2 := by
  cases o with
  | add p =>
    simp only [step, Inventory.addProduct]
    split_ifs
    · exact hm
    · exact hm
    · rw [saveToFile_products]
      intro e he
      rcases mem_insertEntry he with h | h
      · subst h; exact ho
      · exact hm e h
  | update id q r =>
    simp only [step]
    cases hf : inv.products.find id with
    | none => simp only [Inventory.updateProduct, hf]; exact hm
    | some p =>
      rw [updateProduct_products inv id q r p hf]
      have hp : NonNegative p := hm (id, p) (mem_of_findEntry hf)
      intro e he
      rcases mem_insertEntry he with h | h
      · subst h
        show NonNegative (if _ then _ else _)
        split_ifs
        · exact setPrice_nonNegative r (setQuantity_nonNegative q hp)
        · exact setQuantity_nonNegative q hp
      · exact hm e h
  | delete id =>
    simp only [step, Inventory.deleteProduct]
    cases hf : inv.products.find id with
    | none => exact hm
    | some p =>
      simp only [saveToFile_products]
      exact fun e he => hm e ((eraseEntry_sublist id inv.products.entries).subset he)

theorem step_file_of_true {inv : Inventory} {o : Op} (hw : inv.writable = true)
    (ht : (step inv o).1 = true) :
    (step inv o).2.file = some (snapshot (step inv o).2.products) := by
  have key : ∀ i : Inventory, i.writable = true →
      i.saveToFile.2.file = some (snapshot i.saveToFile.2.products) := by
    intro i hi
    rw [saveToFile_products, saveToFile_file_of_writable i hi]
  cases o with
  | add p =>
    simp only [step, Inventory.addProduct] at ht ⊢
    split_ifs at ht ⊢
    exact key _ hw
  | update id q r =>
    simp only [step, Inventory.updateProduct] at ht ⊢
    split at ht
    · simp at ht
    · split_ifs at ht ⊢
      exact key _ hw
  | delete id =>
    simp only [step, Inventory.deleteProduct] at ht ⊢
    split at ht
    · simp at ht
    · exact key _ hw

/-! ## Loading what was saved -/

theorem loadLoop_serializeAll (l : List (Str × Product)) (rest : List Byte)
    (acc : StrMap Product) (hv : ∀ e ∈ l, e.2.Valid) :
    Inventory.loadLoop l.length (serializeAll l ++ rest) acc
      = (true, l.foldl (fun m e => m.insert e.2.productID e.2) acc) := by
  induction l generalizing acc with
  | nil => rfl
  | cons e t ih =>
    have he : e.2.Valid := hv e (List.mem_cons_self _ _)
    simp only [List.length_cons, serializeAll, List.append_assoc, Inventory.loadLoop,
      deserialize_serialize_append _ _ he, List.foldl_cons]
    exact ih _ (fun x hx => hv x (List.mem_cons_of_mem _ hx))

theorem foldl_insert_entries (l pre : List (Str × Product)) (acc : StrMap Product)
    (hs : EntriesSorted (pre ++ l)) (hk : ∀ e ∈ l, e.2.productID = e.1)
    (hacc : acc.entries = pre) :
    (l.foldl (fun m e => m.insert e.2.productID e.2) acc).entries = pre ++ l := by
  induction l generalizing pre acc with
  | nil => simpa using hacc
  | cons e t ih =>
    simp only [List.foldl_cons]
    have hlt : ∀ x ∈ pre, x.1 < e.1 := by
      intro x hx
      exact (List.pairwise_append.mp hs).2.2 x hx e (List.mem_cons_self _ _)
    have hstep : (acc.insert e.2.productID e.2).entries = pre ++ [e] := by
      simp only [StrMap.insert, hacc, hk e (List.mem_cons_self _ _)]
      exact insertEntry_append_of_lt e.2 hlt
    have := ih (pre ++ [e]) (acc.insert e.2.productID e.2)
      (by simpa [List.append_assoc] using hs)
      (fun x hx => hk x (List.mem_cons_of_mem _ hx)) hstep
    simpa [List.append_assoc] using this

theorem loadFromFile_snapshot (m m₀ : StrMap Product) (w : Bool)
    (hm : StoreOK m) (hsz : m.size < 2 ^ 64) :
    Inventory.loadFromFile ⟨m₀, some (snapshot m), w⟩
      = (true, ⟨m, some (snapshot m), w⟩) := by
  have hcount : fromLE (toLE 8 m.size) = m.size :=
    fromLE_toLE_of_lt 8 _ (by simpa using hsz)
  have hloop := loadLoop_serializeAll m.entries [] StrMap.empty (fun e he => (hm e he).2)
  have hent := foldl_insert_entries m.entries [] StrMap.empty
    (by simpa using m.sorted) (fun e he => (hm e he).1) rfl
  rw [List.append_nil] at hloop
  simp only [Inventory.loadFromFile, snapshot, readBytes_toLE, hcount]
  simp only [StrMap.size] at hloop ⊢
  rw [hloop]
  have : m.entries.foldl (fun m e => m.insert e.2.productID e.2) StrMap.empty = m :=
    StrMap.ext (by simpa using hent)
  simp only [this]

theorem loadLoop_of_decodeRecords_none (count : Nat) (s : IStream) (m : StrMap Product)
    (h : decodeRecords count s = none) :
    Inventory.loadLoop count s m
      = (false, (decodedPrefix count s).foldl (fun m p => m.insert p.productID p) m) := by
  induction count generalizing s m with
  | zero => simp [decodeRecords] at h
  | succ n ih =>
    cases hd : Product.deserialize s with
    | none => simp [Inventory.loadLoop, decodedPrefix, hd]
    | some r =>
      obtain ⟨p, s'⟩ := r
      simp only [decodeRecords, hd, Option.map_eq_none'] at h
      simp only [Inventory.loadLoop, decodedPrefix, hd, List.foldl_cons]
      exact ih s' _ h

/-! ## Query lemmas -/

theorem strFind_isSome_iff (needle hay : Str) :
    (strFind needle hay).isSome = true ↔ needle <:+: hay := by
  induction hay with
  | nil =>
    unfold strFind
    by_cases h : needle.isPrefixOf [] = true
    · have hp : needle <+: [] := List.isPrefixOf_iff_prefix.mp h
      simp [h, hp.isInfix]
    · have hn : ¬ needle <:+: [] := by
        intro hi
        have : needle = [] := List.eq_nil_of_infix_nil hi
        subst this
        exact h (by simp)
      simp [h, hn]
  | cons c t ih =>
    unfold strFind
    rw [List.infix_cons_iff]
    by_cases h : needle.isPrefixOf (c :: t) = true
    · simp only [h, if_true, Option.isSome_some, true_iff]
      exact Or.inl (List.isPrefixOf_iff_prefix.mp h)
    · have hp : ¬ needle <+: c :: t := fun hp => h (List.isPrefixOf_iff_prefix.mpr hp)
      simp only [h, if_false, Option.isSome_map', ih, Bool.false_eq_true]
      exact ⟨Or.inr, fun h' => h'.resolve_left hp⟩

theorem searchLoop_eq_filter (q : Str) (l : List (Str × Product)) :
    searchLoop q l = l.filter (fun e => decide (q <:+: toLowerStr e.2.name)) := by
  induction l with
  | nil => rfl
  | cons e t ih =>
    unfold searchLoop
    by_cases h : q <:+: toLowerStr e.2.name
    · simp [(strFind_isSome_iff _ _).mpr h, h, ih]
    · have h' : (strFind q (toLowerStr e.2.name)).isSome = false := by
        simpa using mt (strFind_isSome_iff _ _).mp h
      simp [h', h, ih]

theorem lowStockLoop_eq_filter (t : Int) (l : List (Str × Product)) :
    lowStockLoop t l = l.filter (fun e => decide (e.2.quantity ≤ t)) := by
  induction l with
  | nil => rfl
  | cons e r ih =>
    unfold lowStockLoop
    by_cases h : e.2.quantity ≤ t <;> simp [Product.isLowStock, h, ih]

theorem entriesSorted_filter {β : Type} (f : Str × β → Bool) {l : List (Str × β)}
    (h : EntriesSorted l) : EntriesSorted (l.filter f) :=
  List.Pairwise.sublist (List.filter_sublist l) h

/-! ## Credential store lemmas -/

theorem readUser_append (u t : Str) (rest : List Byte)
    (hu : u.length < 2 ^ 64) (ht : t.length < 2 ^ 64) :
    readUser (toLE 8 u.length ++ u ++ (toLE 8 t.length ++ t) ++ rest) = some (u, t, rest) := by
  have e1 : fromLE (toLE 8 u.length) = u.length := fromLE_toLE_of_lt 8 _ (by simpa using hu)
  have e2 : fromLE (toLE 8 t.length) = t.length := fromLE_toLE_of_lt 8 _ (by simpa using ht)
  simp only [readUser, List.append_assoc, readBytes_toLE, Option.bind_eq_bind,
    Option.some_bind, e1, e2, readBytes_append, Option.pure_def]

theorem loadUsersLoop_serializeUsers (l : List (Str × Str)) (rest : List Byte)
    (acc : StrMap Str) (hv : ∀ e ∈ l, e.1.length < 2 ^ 64 ∧ e.2.length < 2 ^ 64) :
    loadUsersLoop l.length (serializeUsers l ++ rest) acc
      = some (l.foldl (fun m e => m.insert e.1 e.2) acc) := by
  induction l generalizing acc with
  | nil => rfl
  | cons e t ih =>
    obtain ⟨h1, h2⟩ := hv e (List.mem_cons_self _ _)
    have hr := readUser_append e.1 e.2 (serializeUsers t ++ rest) h1 h2
    simp only [List.append_assoc] at hr
    simp only [List.length_cons, serializeUsers, List.append_assoc, loadUsersLoop, hr,
      List.foldl_cons]
    exact ih _ (fun x hx => hv x (List.mem_cons_of_mem _ hx))

theorem foldl_insert_pairs {β : Type} (l pre : List (Str × β)) (acc : StrMap β)
    (hs : EntriesSorted (pre ++ l)) (hacc : acc.entries = pre) :
    (l.foldl (fun m e => m.insert e.1 e.2) acc).entries = pre ++ l := by
  induction l generalizing pre acc with
  | nil => simpa using hacc
  | cons e t ih =>
    simp only [List.foldl_cons]
    have hlt : ∀ x ∈ pre, x.1 < e.1 := by
      intro x hx
      exact (List.pairwise_append.mp hs).2.2 x hx e (List.mem_cons_self _ _)
    have hstep : (acc.insert e.1 e.2).entries = pre ++ [e] := by
      simp only [StrMap.insert, hacc]
      exact insertEntry_append_of_lt e.2 hlt
    have := ih (pre ++ [e]) (acc.insert e.1 e.2) (by simpa [List.append_assoc] using hs) hstep
    simpa [List.append_assoc] using this

theorem loadUsers_userSnapshot (m m₀ : StrMap Str) (w : Bool) (cur : Str)
    (hm : UsersOK m) (hsz : m.size < 2 ^ 64) :
    Authentication.loadUsers ⟨m₀, some (userSnapshot m), w, cur⟩
      = some (true, ⟨m, some (userSnapshot m), w, cur⟩) := by
  have hcount : fromLE (toLE 8 m.size) = m.size :=
    fromLE_toLE_of_lt 8 _ (by simpa using hsz)
  have hloop := loadUsersLoop_serializeUsers m.entries [] StrMap.empty hm
  have hent := foldl_insert_pairs m.entries [] StrMap.empty (by simpa using m.sorted) rfl
  rw [List.append_nil] at hloop
  have hfold : m.entries.foldl (fun m e => m.insert e.1 e.2) StrMap.empty = m :=
    StrMap.ext (by simpa using hent)
  rw [hfold] at hloop
  simp only [StrMap.size] at hcount
  simp only [Authentication.loadUsers, userSnapshot, readBytes_toLE, StrMap.size, hcount, hloop,
    Option.map_some']

theorem saveUsers_users (a : Authentication) : a.saveUsers.2.users = a.users := by
  unfold Authentication.saveUsers
  split_ifs <;> rfl

theorem saveUsers_currentUser (a : Authentication) :
    a.saveUsers.2.currentUser = a.currentUser := by
  unfold Authentication.saveUsers
  split_ifs <;> rfl

theorem registerUser_of_ok (hasher : Str → Nat) (a : Authentication) (u p : Str)
    (hu : u ≠ []) (hp : p ≠ []) (hf : a.users.find u = none) (hl : 6 ≤ p.length) :
    Authentication.registerUser hasher a u p
      = ⟨true, (Authentication.saveUsers ⟨a.users.insert u (Authentication.hashPassword hasher p),
          a.file, a.writable, a.currentUser⟩).2, ascii "User registered successfully!\n", []⟩ := by
  simp [Authentication.registerUser, hu, hp, hf, not_lt.mpr hl]

theorem registerUser_find_of_true (hasher : Str → Nat) (a : Authentication) (u p : Str)
    (h : (Authentication.registerUser hasher a u p).result = true) :
    (Authentication.registerUser hasher a u p).auth.users.find u
      = some (Authentication.hashPassword hasher p) := by
  unfold Authentication.registerUser at h ⊢
  split_ifs at h ⊢
  show (Authentication.saveUsers _).2.users.find u = _
  rw [saveUsers_users]
  exact findEntry_insertEntry_self _ _ _

theorem login_cases (hasher : Str → Nat) (a : Authentication) (u p : Str) :
    ((Authentication.login hasher a u p).result = true
        ↔ a.users.find u = some (Authentication.hashPassword hasher p))
      ∧ ((Authentication.login hasher a u p).result = true →
          (Authentication.login hasher a u p).auth = ⟨a.users, a.file, a.writable, u⟩)
      ∧ ((Authentication.login hasher a u p).result = false →
          Authentication.login hasher a u p
            = ⟨false, a, [], ascii "Error: Invalid username or password.\n"⟩) := by
  cases hf : a.users.find u with
  | none => simp [Authentication.login, hf]
  | some tok =>
    by_cases ht : tok = Authentication.hashPassword hasher p
    · simp [Authentication.login, hf, ht]
    · simp [Authentication.login, hf, ht]

/-! ## Insertion order, layout and invariants -/

theorem saveToFile_eq (i : Inventory) :
    i.saveToFile.2
      = ⟨i.products, if i.writable = true then some (snapshot i.products) else i.file,
          i.writable⟩ := by
  unfold Inventory.saveToFile
  split_ifs <;> rfl

theorem addProduct_of_true {inv : Inventory} {p : Product} (h : (inv.addProduct p).1 = true) :
    inv.products.find p.productID = none ∧ p.productID ≠ [] ∧ p.name ≠ [] := by
  unfold Inventory.addProduct at h
  split_ifs at h with h1 h2
  refine ⟨?_, ?_, ?_⟩
  · simpa [Inventory.isUniqueID] using h1
  · intro he; simp [he] at h2
  · intro he; simp [he] at h2

theorem addProduct_ok {inv : Inventory} {p : Product}
    (hf : inv.products.find p.productID = none) (hi : p.productID ≠ []) (hn : p.name ≠ []) :
    inv.addProduct p
      = (true, ⟨inv.products.insert p.productID p,
          if inv.writable = true then some (snapshot (inv.products.insert p.productID p))
          else inv.file, inv.writable⟩) := by
  have hu : inv.isUniqueID p.productID = true := by simp [Inventory.isUniqueID, hf]
  have h : inv.addProduct p
      = (true, (Inventory.saveToFile ⟨inv.products.insert p.productID p,
          inv.file, inv.writable⟩).2) := by
    simp [Inventory.addProduct, hu, hi, hn]
  rw [h, saveToFile_eq]

theorem serialize_length (p : Product) :
    p.serialize.length = 28 + p.name.length + p.productID.length := by
  simp only [Product.serialize, List.length_append, toLE_length]
  omega

theorem serializeAll_length (l : List (Str × Product)) :
    (serializeAll l).length
      = (l.map (fun e => 28 + e.2.name.length + e.2.productID.length)).sum := by
  induction l with
  | nil => rfl
  | cons e t ih =>
    simp only [serializeAll, List.length_append, serialize_length, ih, List.map_cons,
      List.sum_cons]

theorem keysAreIDs_insert {m : StrMap Product} {k : Str} {p : Product}
    (hm : KeysAreIDs m) (hk : p.productID = k) : KeysAreIDs (m.insert k p) := by
  intro e he
  rcases mem_insertEntry he with h | h
  · subst h; exact hk
  · exact hm e h

theorem step_keysAreIDs {inv : Inventory} (o : Op) (hm : KeysAreIDs inv.products) :
    KeysAreIDs (step inv o).2.products := by
  cases o with
  | add p =>
    simp only [step, Inventory.addProduct]
    split_ifs
    · exact hm
    · exact hm
    · rw [saveToFile_products]; exact keysAreIDs_insert hm rfl
  | update id q r =>
    simp only [step]
    cases hf : inv.products.find id with
    | none => simp only [Inventory.updateProduct, hf]; exact hm
    | some p =>
      rw [updateProduct_products inv id q r p hf]
      have hid : p.productID = id := hm (id, p) (mem_of_findEntry hf)
      split_ifs
      · refine keysAreIDs_insert hm ?_
        rw [(setPrice_fields _ r).2.1, (setQuantity_fields p q).2.1, hid]
      · refine keysAreIDs_insert hm ?_
        rw [(setQuantity_fields p q).2.1, hid]
  | delete id =>
    simp only [step, Inventory.deleteProduct]
    cases hf : inv.products.find id with
    | none => exact hm
    | some p =>
      simp only [saveToFile_products]
      exact fun e he => hm e ((eraseEntry_sublist id inv.products.entries).subset he)

theorem run_keysAreIDs (ops : List Op) (inv : Inventory) (hm : KeysAreIDs inv.products) :
    KeysAreIDs (run inv ops).products := by
  induction ops generalizing inv with
  | nil => exact hm
  | cons o t ih =>
    simp only [run, List.foldl_cons]
    exact ih _ (step_keysAreIDs o hm)

theorem loadLoop_keysAreIDs (count : Nat) (s : IStream) (m : StrMap Product)
    (hm : KeysAreIDs m) : KeysAreIDs (Inventory.loadLoop count s m).2 := by
  induction count generalizing s m with
  | zero => exact hm
  | succ n ih =>
    cases hd : Product.deserialize s with
    | none => simp only [Inventory.loadLoop, hd]; exact hm
    | some r =>
      obtain ⟨p, s'⟩ := r
      simp only [Inventory.loadLoop, hd]
      exact ih s' _ (keysAreIDs_insert hm rfl)

theorem loadFromFile_keysAreIDs (inv : Inventory) (hm : KeysAreIDs inv.products) :
    KeysAreIDs inv.loadFromFile.2.products := by
  unfold Inventory.loadFromFile
  cases inv.file with
  | none => exact hm
  | some bytes =>
    cases hr : readBytes 8 bytes with
    | none => simp only [hr]; exact hm
    | some r =>
      simp only [hr]
      exact loadLoop_keysAreIDs _ _ _ (by intro e he; simp [StrMap.empty] at he)

theorem searchByID_fst (inv : Inventory) (id : Str) :
    (inv.searchByID id).1 = inv.products.find id := by
  unfold Inventory.searchByID
  cases inv.products.find id <;> rfl

theorem registerUser_names_nonempty (hasher : Str → Nat) (a : Authentication) (u p : Str)
    (ha : ∀ e ∈ a.users.entries, e.1 ≠ []) :
    ∀ e ∈ (Authentication.registerUser hasher a u p).auth.users.entries, e.1 ≠ [] := by
  unfold Authentication.registerUser
  split_ifs with h1 h2 h3
  · exact ha
  · exact ha
  · exact ha
  · show ∀ e ∈ (Authentication.saveUsers _).2.users.entries, e.1 ≠ []
    rw [saveUsers_users]
    intro e he
    rcases mem_insertEntry he with h | h
    · subst h
      intro hu
      simp only at hu
      simp [hu] at h1
    · exact ha e h

theorem registerAll_names_nonempty (hasher : Str → Nat) (calls : List (Str × Str))
    (a : Authentication) (ha : ∀ e ∈ a.users.entries, e.1 ≠ []) :
    ∀ e ∈ (registerAll hasher a calls).users.entries, e.1 ≠ [] := by
  induction calls generalizing a with
  | nil => exact ha
  | cons c t ih =>
    simp only [registerAll, List.foldl_cons]
    exact ih _ (registerUser_names_nonempty hasher a c.1 c.2 ha)

/-! ## Claims -/

/-- C1. Product codec round trip: for every product a C++ `Product` can hold
(any name and ID byte strings, empty ones included, any `int` quantity, any
price pattern), `deserialize` applied to the bytes written by `serialize`,
followed by any further stream content `rest`, succeeds, yields a product with
the same name, productID, quantity and price, and leaves exactly `rest`
unread, that is, it consumes exactly the bytes that were written. -/
theorem C1_product_codec_round_trip (p : Product) (rest : List Byte) (h : p.Valid) :
    ∃ q, Product.deserialize (p.serialize ++ rest) = some (q, rest)
      ∧ q.name = p.name ∧ q.productID = p.productID
      ∧ q.quantity = p.quantity ∧ q.price = p.price :=
  ⟨p, deserialize_serialize_append p rest h, rfl, rfl, rfl, rfl⟩

/-- C1 at the product with empty name, empty ID, quantity 0 and price +0.0,
followed by one stray byte. -/
theorem C1_product_codec_round_trip_witness :
    (Product.mk [] [] 0 ⟨0⟩).Valid ∧
    ∃ q, Product.deserialize ((Product.mk [] [] 0 ⟨0⟩).serialize ++ [7])
        = some (q, [7])
      ∧ q.name = [] ∧ q.productID = []
      ∧ q.quantity = 0 ∧ q.price = ⟨0⟩ :=
  ⟨by decide, C1_product_codec_round_trip (Product.mk [] [] 0 ⟨0⟩) [7] (by decide)⟩

/-- C2, the code at the failing input: on the store holding the single record
(`n`, `A`, 5, 1.0) the call `updateProduct("A", 7, -1.0)` returns false, the
price is still 1.0, but the quantity is 7 and no longer 5: `setQuantity` has
already written when `setPrice` rejects. -/
theorem C2_update_writes_quantity_then_rejects_price :
    (sampleInventory.updateProduct [65] 7 minusOne).1 = false
      ∧ sampleInventory.products.find [65] = some ⟨[110], [65], 5, ⟨0x3FF0000000000000⟩⟩
      ∧ (sampleInventory.updateProduct [65] 7 minusOne).2.products.find [65]
          = some ⟨[110], [65], 7, ⟨0x3FF0000000000000⟩⟩ := by
  decide

/-- C3 as stated fails: with the store holding one record and a file that
holds only the 8-byte count 1 (one record declared, none present),
`loadFromFile` returns false but the map is no longer the one before the call
(it has been cleared). -/
theorem C3_counterexample :
    Truncated (toLE 8 1)
      ∧ ¬ ((Inventory.loadFromFile ⟨sampleInventory.products, some (toLE 8 1), true⟩).1 = false
          ∧ (Inventory.loadFromFile ⟨sampleInventory.products, some (toLE 8 1), true⟩).2.products
              = sampleInventory.products) := by
  decide

/-- C3, amended: for every store state and every truncated file content,
`loadFromFile` returns false and leaves the file alone; when the 8-byte count
itself is incomplete the product map is unchanged; otherwise the previous
contents are discarded and the map holds exactly the records that could be read
in full before the first incomplete one, each under its own ID. -/
theorem C3_load_of_truncated_input (inv : Inventory) (bytes : List Byte)
    (hf : inv.file = some bytes) (ht : Truncated bytes) :
    inv.loadFromFile.1 = false
      ∧ inv.loadFromFile.2.file = inv.file
      ∧ inv.loadFromFile.2.writable = inv.writable
      ∧ (bytes.length < 8 → inv.loadFromFile.2.products = inv.products)
      ∧ (8 ≤ bytes.length → inv.loadFromFile.2.products
          = mapOfProducts (decodedPrefix (fromLE (bytes.take 8)) (bytes.drop 8))) := by
  by_cases h8 : 8 ≤ bytes.length
  · have hd : decodeRecords (fromLE (bytes.take 8)) (bytes.drop 8) = none := by
      rcases ht with h | h
      · omega
      · exact h
    have hl := loadLoop_of_decodeRecords_none _ _ StrMap.empty hd
    have hload : inv.loadFromFile
        = (false, ⟨mapOfProducts (decodedPrefix (fromLE (bytes.take 8)) (bytes.drop 8)),
            inv.file, inv.writable⟩) := by
      simp only [Inventory.loadFromFile, hf, readBytes, if_pos h8, hl, mapOfProducts]
    rw [hload]
    exact ⟨rfl, rfl, rfl, fun h => absurd h8 (by omega), fun _ => rfl⟩
  · have hload : inv.loadFromFile = (false, inv) := by
      simp only [Inventory.loadFromFile, hf, readBytes, if_neg h8]
    rw [hload]
    exact ⟨rfl, rfl, rfl, fun _ => rfl, fun h => absurd h h8⟩

/-- C3 (amended) at a file that declares two records and holds one complete
record followed by three stray bytes: the old record `A` is gone and the map
holds the one record that was read. -/
theorem C3_load_of_truncated_input_witness :
    (Inventory.loadFromFile ⟨sampleInventory.products,
        some (toLE 8 2 ++ (Product.mk [120] [66] 3 ⟨0⟩).serialize ++ [1, 2, 3]), true⟩).1 = false
      ∧ (Inventory.loadFromFile ⟨sampleInventory.products,
        some (toLE 8 2 ++ (Product.mk [120] [66] 3 ⟨0⟩).serialize ++ [1, 2, 3]), true⟩).2.products
          = StrMap.empty.insert [66] (Product.mk [120] [66] 3 ⟨0⟩) := by
  have h := C3_load_of_truncated_input
    ⟨sampleInventory.products,
      some (toLE 8 2 ++ (Product.mk [120] [66] 3 ⟨0⟩).serialize ++ [1, 2, 3]), true⟩
    (toLE 8 2 ++ (Product.mk [120] [66] 3 ⟨0⟩).serialize ++ [1, 2, 3]) rfl (by decide)
  exact ⟨h.1, (h.2.2.2.2 (by decide)).trans (by decide)⟩

/-- C4. Store persistence round trip: for every store reached from the empty
store by a sequence of `addProduct`, `updateProduct` and `deleteProduct` calls
(arguments being values of their C++ types, the record count fitting `size_t`,
the file being writable), `saveToFile` succeeds and `loadFromFile` in a fresh
`Inventory` on the bytes it wrote returns true and yields exactly the same
map: the same entries, hence the same IDs and for each ID the same name,
quantity and price. -/
theorem C4_store_persistence_round_trip (ops : List Op) (file : Option (List Byte))
    (hv : ∀ o ∈ ops, o.Valid)
    (hsz : (run ⟨StrMap.empty, file, true⟩ ops).products.size < 2 ^ 64) (w : Bool) :
    (run ⟨StrMap.empty, file, true⟩ ops).saveToFile.1 = true
      ∧ Inventory.loadFromFile
          ⟨StrMap.empty, (run ⟨StrMap.empty, file, true⟩ ops).saveToFile.2.file, w⟩
        = (true, ⟨(run ⟨StrMap.empty, file, true⟩ ops).products,
            (run ⟨StrMap.empty, file, true⟩ ops).saveToFile.2.file, w⟩) := by
  have hw : ∀ (l : List Op) (i : Inventory), (run i l).writable = i.writable := by
    intro l
    induction l with
    | nil => intro i; rfl
    | cons o t ih =>
      intro i
      simp only [run, List.foldl_cons]
      rw [show List.foldl (fun i o => (step i o).2) (step i o).2 t = run (step i o).2 t from rfl,
        ih]
      cases o with
      | add p =>
        simp only [step, Inventory.addProduct]
        split_ifs <;> simp [saveToFile_writable]
      | update id q r =>
        simp only [step, Inventory.updateProduct]
        split <;> [rfl; (split_ifs <;> simp [saveToFile_writable])]
      | delete id =>
        simp only [step, Inventory.deleteProduct]
        split <;> simp [saveToFile_writable]
  have hwr : (run ⟨StrMap.empty, file, true⟩ ops).writable = true := hw ops _
  have hok := run_storeOK ops ⟨StrMap.empty, file, true⟩ storeOK_empty hv
  have hfile := saveToFile_file_of_writable _ hwr
  refine ⟨by simp [Inventory.saveToFile, hwr], ?_⟩
  rw [hfile]
  exact loadFromFile_snapshot _ _ w hok hsz

/-- C4 at `sampleOps`: the store it builds survives a save and a load. -/
theorem C4_store_persistence_round_trip_witness :
    Inventory.loadFromFile
        ⟨StrMap.empty, (run ⟨StrMap.empty, none, true⟩ sampleOps).saveToFile.2.file, false⟩
      = (true, ⟨(run ⟨StrMap.empty, none, true⟩ sampleOps).products,
          (run ⟨StrMap.empty, none, true⟩ sampleOps).saveToFile.2.file, false⟩) :=
  (C4_store_persistence_round_trip sampleOps none (by decide) (by decide) false).2

/-- C5. Uniqueness: for every store and every product whose productID is
already a key of the store, `addProduct` returns false and the whole state
after the call is the state before it: the number of records and every stored
record (name, ID, quantity, price) are unchanged, and so is the file. -/
theorem C5_duplicate_id_rejected (inv : Inventory) (p : Product)
    (h : (inv.products.find p.productID).isSome = true) :
    (inv.addProduct p).1 = false
      ∧ (inv.addProduct p).2 = inv
      ∧ (inv.addProduct p).2.products.size = inv.products.size
      ∧ ∀ k, (inv.addProduct p).2.products.find k = inv.products.find k := by
  have hadd : inv.addProduct p = (false, inv) := by
    have hu : inv.isUniqueID p.productID = false := by
      unfold Inventory.isUniqueID
      cases hf : inv.products.find p.productID with
      | none => simp [hf] at h
      | some _ => rfl
    simp [Inventory.addProduct, hu]
  rw [hadd]
  exact ⟨rfl, rfl, rfl, fun _ => rfl⟩

/-- C5 at the sample store: adding another product with ID `A` is rejected. -/
theorem C5_duplicate_id_rejected_witness :
    (sampleInventory.addProduct ⟨[111], [65], 9, twoAndAHalf⟩).1 = false
      ∧ (sampleInventory.addProduct ⟨[111], [65], 9, twoAndAHalf⟩).2 = sampleInventory :=
  ⟨(C5_duplicate_id_rejected sampleInventory ⟨[111], [65], 9, twoAndAHalf⟩ (by decide)).1,
    (C5_duplicate_id_rejected sampleInventory ⟨[111], [65], 9, twoAndAHalf⟩ (by decide)).2.1⟩

/-- C6 as stated fails: after `addProduct` of a product with quantity -1
(ID `A`), `addProduct` of a product with ID `B` and `updateProduct("B", 1, NaN)`,
all from the empty store, the record `A` has quantity -1 (the constructor and
`addProduct` check no sign) and the record `B` has a NaN price, for which
`price >= 0` is false (`setPrice` rejects only `price < 0.0`). -/
theorem C6_counterexample :
    ¬ (∀ e ∈ (run ⟨StrMap.empty, none, true⟩
          [.add ⟨[110], [65], -1, twoAndAHalf⟩, .add ⟨[110], [66], 1, twoAndAHalf⟩,
            .update [66] 1 quietNaN]).products.entries,
        0 ≤ e.2.quantity ∧ e.2.price.geZero = true)
      ∧ (run ⟨StrMap.empty, none, true⟩
          [.add ⟨[110], [65], -1, twoAndAHalf⟩, .add ⟨[110], [66], 1, twoAndAHalf⟩,
            .update [66] 1 quietNaN]).products.entries
        = [([65], ⟨[110], [65], -1, twoAndAHalf⟩), ([66], ⟨[110], [66], 1, quietNaN⟩)]
      ∧ quietNaN.geZero = false := by
  decide

/-- C6, amended: in every store state reached from the empty store by a
sequence of `addProduct` calls whose product has a quantity not below 0 and a
price that does not compare below 0.0, and of `updateProduct` and
`deleteProduct` calls with arbitrary arguments, every stored product has a
quantity not below 0 and a price that does not compare below 0.0. -/
theorem C6_stored_values_not_negative (ops : List Op) (file : Option (List Byte)) (w : Bool)
    (h : ∀ o ∈ ops, o.AddsNonNegative) :
    ∀ e ∈ (run ⟨StrMap.empty, file, w⟩ ops).products.entries,
      0 ≤ e.2.quantity ∧ e.2.price.ltZero = false := by
  have gen : ∀ (l : List Op) (i : Inventory), (∀ e ∈ i.products.entries, NonNegative e.2) →
      (∀ o ∈ l, o.AddsNonNegative) → ∀ e ∈ (run i l).products.entries, NonNegative e.2 := by
    intro l
    induction l with
    | nil => intro i hi _; exact hi
    | cons o t ih =>
      intro i hi hl
      simp only [run, List.foldl_cons]
      exact ih _ (step_nonNegative hi (hl o (List.mem_cons_self _ _)))
        (fun x hx => hl x (List.mem_cons_of_mem _ hx))
  exact gen ops _ (by intro e he; simp [StrMap.empty] at he) h

/-- C6 (amended) at `sampleOps` followed by two rejected updates and one
update to a NaN price: the record `C`, stored with quantity 2 and the NaN
price, passes both checks. -/
theorem C6_stored_values_not_negative_witness :
    (([67], ⟨[121, 122], [67], 2, quietNaN⟩) : Str × Product)
        ∈ (run ⟨StrMap.empty, none, true⟩
            (sampleOps ++ [.update [65] (-4) twoAndAHalf, .update [65] 4 minusOne,
              .update [67] 2 quietNaN])).products.entries
      ∧ (0 : Int) ≤ 2 ∧ quietNaN.ltZero = false :=
  ⟨by decide,
    C6_stored_values_not_negative
      (sampleOps ++ [.update [65] (-4) twoAndAHalf, .update [65] 4 minusOne,
        .update [67] 2 quietNaN]) none true (by decide)
      ([67], ⟨[121, 122], [67], 2, quietNaN⟩) (by decide)⟩

/-- C7. Empty-field rejection and insertion on add: for every store and
every product whose productID is not yet a key, `addProduct` returns false and
leaves the whole state unchanged if the productID or the name is empty;
otherwise it returns true, the product is stored under its productID, every
other key maps to what it mapped to before, and the record count has grown by
exactly one. -/
theorem C7_add_contract (inv : Inventory) (p : Product)
    (h : inv.products.find p.productID = none) :
    ((p.productID = [] ∨ p.name = []) → inv.addProduct p = (false, inv))
      ∧ (p.productID ≠ [] → p.name ≠ [] →
          (inv.addProduct p).1 = true
            ∧ (inv.addProduct p).2.products.find p.productID = some p
            ∧ (∀ k, k ≠ p.productID →
                (inv.addProduct p).2.products.find k = inv.products.find k)
            ∧ (inv.addProduct p).2.products.size = inv.products.size + 1) := by
  have hu : inv.isUniqueID p.productID = true := by
    simp [Inventory.isUniqueID, h]
  constructor
  · intro he
    rcases he with he | he <;> simp [Inventory.addProduct, hu, he]
  · intro h1 h2
    have hadd : inv.addProduct p
        = (true, (Inventory.saveToFile ⟨inv.products.insert p.productID p,
            inv.file, inv.writable⟩).2) := by
      simp [Inventory.addProduct, hu, h1, h2]
    rw [hadd]
    simp only [saveToFile_products]
    refine ⟨trivial, findEntry_insertEntry_self _ _ _, ?_, length_insertEntry_of_none p h⟩
    intro k hk
    exact findEntry_insertEntry_ne p _ hk

/-- C7 at the sample store and a new product with ID `C`. -/
theorem C7_add_contract_witness :
    (sampleInventory.addProduct ⟨[121, 122], [67], 0, twoAndAHalf⟩).1 = true
      ∧ (sampleInventory.addProduct ⟨[121, 122], [67], 0, twoAndAHalf⟩).2.products.find [67]
          = some ⟨[121, 122], [67], 0, twoAndAHalf⟩
      ∧ (sampleInventory.addProduct ⟨[121, 122], [67], 0, twoAndAHalf⟩).2.products.size = 2 :=
  have h := (C7_add_contract sampleInventory ⟨[121, 122], [67], 0, twoAndAHalf⟩
    (by decide)).2 (by decide) (by decide)
  ⟨h.1, h.2.1, h.2.2.2⟩

/-- C8. Update contract: `updateProduct(id, q, r)` returns false and leaves
the whole state unchanged when `id` is not a key; when `id` is a key and
`q >= 0` and `r >= 0.0`, it returns true, the record under `id` afterwards has
quantity `q` and price `r` and the name and productID it had before, every
other key maps to what it mapped to before, and the record count is the same. -/
theorem C8_update_contract (inv : Inventory) (id : Str) (q : Int) (r : Double) :
    (inv.products.find id = none → inv.updateProduct id q r = (false, inv))
      ∧ (∀ p, inv.products.find id = some p → 0 ≤ q → r.geZero = true →
          (inv.updateProduct id q r).1 = true
            ∧ (inv.updateProduct id q r).2.products.find id
                = some ⟨p.name, p.productID, q, r⟩
            ∧ (∀ k, k ≠ id →
                (inv.updateProduct id q r).2.products.find k = inv.products.find k)
            ∧ (inv.updateProduct id q r).2.products.size = inv.products.size) := by
  constructor
  · intro h
    simp [Inventory.updateProduct, h]
  · intro p hf hq hr
    have hlt : r.ltZero = false := geZero_not_ltZero r hr
    have hnq : ¬ q < 0 := not_lt.mpr hq
    have hprod := updateProduct_products inv id q r p hf
    have hret : (inv.updateProduct id q r).1 = true := by
      simp [Inventory.updateProduct, hf, Product.setQuantity, Product.setPrice, hnq, hlt]
    have hrec : (if (p.setQuantity q).1 then ((p.setQuantity q).2.setPrice r).2
        else (p.setQuantity q).2) = ⟨p.name, p.productID, q, r⟩ := by
      simp [Product.setQuantity, Product.setPrice, hnq, hlt]
    rw [hrec] at hprod
    rw [hprod]
    refine ⟨hret, findEntry_insertEntry_self _ _ _, ?_,
      length_insertEntry_of_some _ inv.products.sorted hf⟩
    intro k hk
    exact findEntry_insertEntry_ne _ _ hk

/-- C8 at the sample store: updating `A` to quantity 7 and price 2.5. -/
theorem C8_update_contract_witness :
    (sampleInventory.updateProduct [65] 7 twoAndAHalf).1 = true
      ∧ (sampleInventory.updateProduct [65] 7 twoAndAHalf).2.products.find [65]
          = some ⟨[110], [65], 7, twoAndAHalf⟩
      ∧ sampleInventory.updateProduct [66] 7 twoAndAHalf = (false, sampleInventory) :=
  have h := (C8_update_contract sampleInventory [65] 7 twoAndAHalf).2 sampleProduct
    (by decide) (by decide) (by decide)
  ⟨h.1, h.2.1, (C8_update_contract sampleInventory [66] 7 twoAndAHalf).1 (by decide)⟩

/-- C9. Delete contract: `deleteProduct(id)` returns false and leaves the
whole state unchanged when `id` is not a key; when `id` is a key it returns
true, `id` is no longer a key, the record count has dropped by exactly one, and
every other key maps to what it mapped to before. -/
theorem C9_delete_contract (inv : Inventory) (id : Str) :
    (inv.products.find id = none → inv.deleteProduct id = (false, inv))
      ∧ ((inv.products.find id).isSome = true →
          (inv.deleteProduct id).1 = true
            ∧ (inv.deleteProduct id).2.products.find id = none
            ∧ (inv.deleteProduct id).2.products.size + 1 = inv.products.size
            ∧ (∀ k, k ≠ id →
                (inv.deleteProduct id).2.products.find k = inv.products.find k)) := by
  constructor
  · intro h
    simp [Inventory.deleteProduct, h]
  · intro h
    cases hf : inv.products.find id with
    | none => simp [hf] at h
    | some p =>
      simp only [Inventory.deleteProduct, hf, saveToFile_products]
      refine ⟨trivial, findEntry_eraseEntry_self id inv.products.sorted,
        length_eraseEntry_of_some hf, ?_⟩
      intro k hk
      exact findEntry_eraseEntry_ne _ hk

/-- C9 at the sample store: deleting `A` empties it, deleting `B` fails. -/
theorem C9_delete_contract_witness :
    (sampleInventory.deleteProduct [65]).1 = true
      ∧ (sampleInventory.deleteProduct [65]).2.products.find [65] = none
      ∧ (sampleInventory.deleteProduct [65]).2.products.size + 1 = 1
      ∧ sampleInventory.deleteProduct [66] = (false, sampleInventory) :=
  have h := (C9_delete_contract sampleInventory [65]).2 (by decide)
  ⟨h.1, h.2.1, h.2.2.1, (C9_delete_contract sampleInventory [66]).1 (by decide)⟩

/-- C10. Auto-save after every mutation: with the file as an explicit byte
sequence that can be opened for writing, after every `addProduct`,
`updateProduct` or `deleteProduct` call that returns true the file content is
the snapshot encoding of the resulting store (8-byte count, then every
record in key order); and, the store before the call being one the program can
build (every record under its own ID, fields within their C++ types), the
arguments being C++ values and the count fitting `size_t`, loading that file
into a fresh `Inventory` returns true and yields exactly the resulting store. -/
theorem C10_auto_save_after_mutation (inv : Inventory) (o : Op)
    (hw : inv.writable = true) (ht : (step inv o).1 = true) :
    (step inv o).2.file = some (snapshot (step inv o).2.products)
      ∧ (StoreOK inv.products → o.Valid → (step inv o).2.products.size < 2 ^ 64 →
          ∀ w, Inventory.loadFromFile ⟨StrMap.empty, (step inv o).2.file, w⟩
            = (true, ⟨(step inv o).2.products, (step inv o).2.file, w⟩)) := by
  have hfile := step_file_of_true hw ht
  refine ⟨hfile, ?_⟩
  intro hok hv hsz w
  rw [hfile]
  exact loadFromFile_snapshot _ _ w (step_storeOK hok hv) hsz

/-- C10 at the sample store and an update of `A`: the file, absent before,
holds the snapshot of the updated store, and loading it gives that store. -/
theorem C10_auto_save_after_mutation_witness :
    (step sampleInventory (.update [65] 7 twoAndAHalf)).2.file
        = some (snapshot (step sampleInventory (.update [65] 7 twoAndAHalf)).2.products)
      ∧ Inventory.loadFromFile
          ⟨StrMap.empty, (step sampleInventory (.update [65] 7 twoAndAHalf)).2.file, true⟩
        = (true, ⟨(step sampleInventory (.update [65] 7 twoAndAHalf)).2.products,
            (step sampleInventory (.update [65] 7 twoAndAHalf)).2.file, true⟩) :=
  have h := C10_auto_save_after_mutation sampleInventory (.update [65] 7 twoAndAHalf)
    (by decide) (by decide)
  ⟨h.1, h.2 (by decide) (by decide) (by decide) true⟩

/-- C11. Name search: for every store and every query string `s`,
`searchByName(s)` returns exactly the map entries whose name, lower-cased,
contains the lower-cased `s` as a contiguous substring, each of them once and
in strictly ascending key order (it is the entry list of the map with the
other entries left out), and it returns the empty sequence exactly when no
stored name matches; and the query `WID` finds the stored product named
`widget-7` (and `MidWidth`, and not `Gadget`). -/
theorem C11_search_by_name :
    (∀ (inv : Inventory) (s : Str),
        inv.searchByName s
            = inv.products.entries.filter
                (fun e => decide (toLowerStr s <:+: toLowerStr e.2.name))
          ∧ EntriesSorted (inv.searchByName s)
          ∧ (inv.searchByName s = [] ↔
              ∀ e ∈ inv.products.entries, ¬ toLowerStr s <:+: toLowerStr e.2.name))
      ∧ searchInventory.searchByName upperWID
          = [([65], ⟨widget7, [65], 10, twoAndAHalf⟩),
              ([67], ⟨[77, 105, 100, 87, 105, 100, 116, 104], [67], 0, twoAndAHalf⟩)] := by
  refine ⟨?_, by decide⟩
  intro inv s
  have hf := searchLoop_eq_filter (toLowerStr s) inv.products.entries
  refine ⟨hf, ?_, ?_⟩
  · unfold Inventory.searchByName
    rw [hf]
    exact entriesSorted_filter _ inv.products.sorted
  · unfold Inventory.searchByName
    rw [hf, List.filter_eq_nil_iff]
    simp

/-- C12. Exact-ID lookup: for every store and every string `id`,
`searchByID(id)` leaves the object as it was, returns the record `p` exactly
when the map has the entry `id -> p`, and returns `nullptr` exactly when no
entry has the key `id`; keys are compared byte for byte, so in the store that
holds only `A` the lookup of `a` finds nothing. -/
theorem C12_search_by_id :
    (∀ (inv : Inventory) (id : Str),
        (inv.searchByID id).2 = inv
          ∧ (∀ p, (inv.searchByID id).1 = some p ↔ (id, p) ∈ inv.products.entries)
          ∧ ((inv.searchByID id).1 = none ↔ ∀ p, (id, p) ∉ inv.products.entries))
      ∧ (sampleInventory.searchByID [65]).1 = some sampleProduct
      ∧ (sampleInventory.searchByID [97]).1 = none := by
  refine ⟨?_, by decide, by decide⟩
  intro inv id
  have hres : (inv.searchByID id) = (inv.products.find id, inv) := by
    unfold Inventory.searchByID
    cases inv.products.find id <;> rfl
  rw [hres]
  refine ⟨rfl, ?_, ?_⟩
  · intro p
    exact ⟨mem_of_findEntry, findEntry_of_mem inv.products.sorted⟩
  · constructor
    · intro hn p hp
      have := findEntry_of_mem inv.products.sorted hp
      simp only [StrMap.find] at hn
      rw [hn] at this
      cases this
    · intro hn
      cases hf : inv.products.find id with
      | none => rfl
      | some p => exact absurd (mem_of_findEntry hf) (hn p)

/-- C14. Low-stock boundary: for every product and every integer threshold
`t`, `isLowStock(t)` is true exactly when the quantity is at most `t`; the
default threshold is 10, so that a product with quantity exactly 10 is low
stock and one with quantity 11 is not; and for every store and threshold the
rows of the low-stock report are exactly the map entries with quantity at
most the threshold, in strictly ascending key order, the report without an
argument being the one for threshold 10. -/
theorem C14_low_stock_boundary :
    (∀ (p : Product) (t : Int), p.isLowStock t = true ↔ p.quantity ≤ t)
      ∧ defaultThreshold = 10
      ∧ (∀ (n i : Str) (r : Double), (Product.mk n i 10 r).isLowStock defaultThreshold = true)
      ∧ (∀ (n i : Str) (r : Double), (Product.mk n i 11 r).isLowStock defaultThreshold = false)
      ∧ (∀ (inv : Inventory) (t : Int),
          inv.displayLowStock t
              = inv.products.entries.filter (fun e => decide (e.2.quantity ≤ t))
            ∧ EntriesSorted (inv.displayLowStock t))
      ∧ (∀ inv : Inventory, inv.generateLowStockReport = inv.displayLowStock 10)
      ∧ (searchInventory.generateLowStockReport).map (fun e => e.1) = [[65], [67]] := by
  refine ⟨?_, rfl, ?_, ?_, ?_, fun _ => rfl, by decide⟩
  · intro p t
    simp [Product.isLowStock]
  · intro n i r
    simp [Product.isLowStock, defaultThreshold]
  · intro n i r
    simp [Product.isLowStock, defaultThreshold]
  · intro inv t
    have hf := lowStockLoop_eq_filter t inv.products.entries
    refine ⟨hf, ?_⟩
    unfold Inventory.displayLowStock
    rw [hf]
    exact entriesSorted_filter _ inv.products.sorted

/-- C15. Registration contract: `registerUser(u, p)` returns false and
leaves the object unchanged if `u` or `p` is empty (first message); else if `u`
is already a key of the user map (second message); else if `p` has fewer than
6 characters (third message); in every other case it returns true, `u` maps to
`hashPassword(p)` afterwards, every other key maps to what it mapped to
before, the map has grown by exactly one entry and the current user is the
same. -/
theorem C15_register_contract (hasher : Str → Nat) (a : Authentication) (u p : Str) :
    ((u = [] ∨ p = []) →
        Authentication.registerUser hasher a u p
          = ⟨false, a, [], ascii "Error: Username and password cannot be empty.\n"⟩)
      ∧ (u ≠ [] → p ≠ [] → (a.users.find u).isSome = true →
          Authentication.registerUser hasher a u p
            = ⟨false, a, [], ascii "Error: Username already exists.\n"⟩)
      ∧ (u ≠ [] → p ≠ [] → a.users.find u = none → p.length < 6 →
          Authentication.registerUser hasher a u p
            = ⟨false, a, [], ascii "Error: Password must be at least 6 characters long.\n"⟩)
      ∧ (u ≠ [] → p ≠ [] → a.users.find u = none → 6 ≤ p.length →
          (Authentication.registerUser hasher a u p).result = true
            ∧ (Authentication.registerUser hasher a u p).auth.users.find u
                = some (Authentication.hashPassword hasher p)
            ∧ (∀ k, k ≠ u →
                (Authentication.registerUser hasher a u p).auth.users.find k = a.users.find k)
            ∧ (Authentication.registerUser hasher a u p).auth.users.size = a.users.size + 1
            ∧ (Authentication.registerUser hasher a u p).auth.currentUser = a.currentUser) := by
  refine ⟨?_, ?_, ?_, ?_⟩
  · intro h
    rcases h with h | h <;> simp [Authentication.registerUser, h]
  · intro hu hp hf
    simp [Authentication.registerUser, hu, hp, hf]
  · intro hu hp hf hl
    simp [Authentication.registerUser, hu, hp, hf, hl]
  · intro hu hp hf hl
    have hreg := registerUser_of_ok hasher a u p hu hp hf hl
    rw [hreg]
    simp only [saveUsers_users, saveUsers_currentUser]
    refine ⟨trivial, findEntry_insertEntry_self _ _ _, ?_, length_insertEntry_of_none _ hf, trivial⟩
    intro k hk
    exact findEntry_insertEntry_ne _ _ hk

/-- C15 at the empty credential store: `alice` with `secret1` is registered;
with an empty password the first check fires, and after the registration a
second one with a short password is rejected by the second check, not the
third. -/
theorem C15_register_contract_witness :
    (Authentication.registerUser sampleHasher sampleAuth alice secret1).result = true
      ∧ (Authentication.registerUser sampleHasher sampleAuth alice secret1).auth.users.find alice
          = some (Authentication.hashPassword sampleHasher secret1)
      ∧ Authentication.registerUser sampleHasher sampleAuth alice []
          = ⟨false, sampleAuth, [], ascii "Error: Username and password cannot be empty.\n"⟩
      ∧ Authentication.registerUser sampleHasher
            (Authentication.registerUser sampleHasher sampleAuth alice secret1).auth alice [120]
          = ⟨false, (Authentication.registerUser sampleHasher sampleAuth alice secret1).auth, [],
              ascii "Error: Username already exists.\n"⟩ :=
  have h := (C15_register_contract sampleHasher sampleAuth alice secret1).2.2.2
    (by decide) (by decide) (by decide) (by decide)
  ⟨h.1, h.2.1,
    (C15_register_contract sampleHasher sampleAuth alice []).1 (Or.inr rfl),
    (C15_register_contract sampleHasher
      (Authentication.registerUser sampleHasher sampleAuth alice secret1).auth alice [120]).2.1
      (by decide) (by decide) (by decide)⟩

/-- C16. Login decision and uniform failure: `login(u, p)` returns true
exactly when `u` is a key of the user map and the token stored for it equals
`hashPassword(p)`; on success the object is the old one with `u` as current
user; on failure, whichever check failed, the object (the current user
included) is unchanged, nothing is written to `cout` and the text written to
`cerr` is the one message `Error: Invalid username or password.` -/
theorem C16_login_decision (hasher : Str → Nat) (a : Authentication) (u p : Str) :
    ((Authentication.login hasher a u p).result = true
        ↔ a.users.find u = some (Authentication.hashPassword hasher p))
      ∧ ((Authentication.login hasher a u p).result = true →
          (Authentication.login hasher a u p).auth = ⟨a.users, a.file, a.writable, u⟩)
      ∧ ((Authentication.login hasher a u p).result = false →
          Authentication.login hasher a u p
            = ⟨false, a, [], ascii "Error: Invalid username or password.\n"⟩) :=
  login_cases hasher a u p

/-- C16 at the store with the one account `alice`/`secret1`: the right
password logs in, and a wrong password and an unknown user get the very same
reply. -/
theorem C16_login_decision_witness :
    (Authentication.login sampleHasher
        (Authentication.registerUser sampleHasher sampleAuth alice secret1).auth
        alice secret1).auth.currentUser = alice
      ∧ Authentication.login sampleHasher
          (Authentication.registerUser sampleHasher sampleAuth alice secret1).auth alice [119]
        = Authentication.login sampleHasher
          (Authentication.registerUser sampleHasher sampleAuth alice secret1).auth [98, 111, 98]
            [120] :=
  ⟨congrArg Authentication.currentUser
      ((C16_login_decision sampleHasher
        (Authentication.registerUser sampleHasher sampleAuth alice secret1).auth
        alice secret1).2.1 (by decide)),
    ((C16_login_decision sampleHasher
        (Authentication.registerUser sampleHasher sampleAuth alice secret1).auth
        alice [119]).2.2 (by decide)).trans
      ((C16_login_decision sampleHasher
        (Authentication.registerUser sampleHasher sampleAuth alice secret1).auth
        [98, 111, 98] [120]).2.2 (by decide)).symm⟩

/-- C17. Register then login: for every credential store, username `u` and
password `p` for which `registerUser(u, p)` returns true, `login(u, p)` right
afterwards returns true, and `u` is then the current user and the session
counts as logged in. -/
theorem C17_register_then_login (hasher : Str → Nat) (a : Authentication) (u p : Str)
    (h : (Authentication.registerUser hasher a u p).result = true) :
    (Authentication.login hasher (Authentication.registerUser hasher a u p).auth u p).result
        = true
      ∧ (Authentication.login hasher
          (Authentication.registerUser hasher a u p).auth u p).auth.getCurrentUser = u := by
  have hfind := registerUser_find_of_true hasher a u p h
  have hlog := login_cases hasher (Authentication.registerUser hasher a u p).auth u p
  have hres := hlog.1.mpr hfind
  refine ⟨hres, ?_⟩
  rw [hlog.2.1 hres]
  rfl

/-- C17 at the empty credential store: registering `alice` with `secret1`
and then logging in with `alice` and `secret1` succeeds. -/
theorem C17_register_then_login_witness :
    (Authentication.registerUser sampleHasher sampleAuth alice secret1).result = true
      ∧ (Authentication.login sampleHasher
          (Authentication.registerUser sampleHasher sampleAuth alice secret1).auth
          alice secret1).result = true
      ∧ (Authentication.login sampleHasher
          (Authentication.registerUser sampleHasher sampleAuth alice secret1).auth
          alice secret1).auth.getCurrentUser = alice :=
  ⟨by decide, C17_register_then_login sampleHasher sampleAuth alice secret1 (by decide)⟩

/-- C18. Bootstrap: constructing an `Authentication` over a credential file
that does not exist, is zero bytes long, or starts with the record count 0
completes, and the object then holds exactly one account, `admin` with the
token `hashPassword("admin123")`, nobody being logged in. -/
theorem C18_bootstrap (hasher : Str → Nat) (writable : Bool) (file : Option (List Byte))
    (h : file = none ∨ file = some [] ∨ ∃ rest, file = some (toLE 8 0 ++ rest)) :
    ∃ r, Authentication.construct hasher file writable = some r
      ∧ r.1.users.entries
          = [(ascii "admin", Authentication.hashPassword hasher (ascii "admin123"))]
      ∧ r.1.users.size = 1
      ∧ r.1.currentUser = [] := by
  have hload : ∃ b, Authentication.loadUsers ⟨StrMap.empty, file, writable, []⟩
      = some (b, ⟨StrMap.empty, file, writable, []⟩) := by
    rcases h with h | h | ⟨rest, h⟩
    · subst h; exact ⟨true, rfl⟩
    · subst h; exact ⟨false, rfl⟩
    · subst h
      refine ⟨true, ?_⟩
      simp only [Authentication.loadUsers, readBytes_toLE]
      rfl
  obtain ⟨b, hb⟩ := hload
  have hreg := registerUser_of_ok hasher ⟨StrMap.empty, file, writable, []⟩
    (ascii "admin") (ascii "admin123") (by decide) (by decide) rfl (by decide)
  have hcon : Authentication.construct hasher file writable
      = some ((Authentication.registerUser hasher ⟨StrMap.empty, file, writable, []⟩
            (ascii "admin") (ascii "admin123")).auth,
          (Authentication.registerUser hasher ⟨StrMap.empty, file, writable, []⟩
            (ascii "admin") (ascii "admin123")).cout
            ++ ascii "Default admin account created (username: admin, password: admin123)\n",
          (Authentication.registerUser hasher ⟨StrMap.empty, file, writable, []⟩
            (ascii "admin") (ascii "admin123")).cerr) := by
    simp only [Authentication.construct, hb]
    rw [if_pos (by rfl)]
  refine ⟨_, hcon, ?_, ?_, ?_⟩
  · rw [hreg]
    show (Authentication.saveUsers _).2.users.entries = _
    rw [saveUsers_users]
    rfl
  · rw [hreg]
    show (Authentication.saveUsers _).2.users.size = _
    rw [saveUsers_users]
    rfl
  · rw [hreg]
    show (Authentication.saveUsers _).2.currentUser = _
    rw [saveUsers_currentUser]

/-- C18 at a zero-byte credential file. -/
theorem C18_bootstrap_witness :
    ∃ r, Authentication.construct sampleHasher (some []) true = some r
      ∧ r.1.users.entries
          = [(ascii "admin", Authentication.hashPassword sampleHasher (ascii "admin123"))]
      ∧ r.1.users.size = 1
      ∧ r.1.currentUser = [] :=
  C18_bootstrap sampleHasher true (some []) (Or.inr (Or.inl rfl))

/-- C19. Logout is idempotent: for every object, after `logout()` the
current user is empty and `isLoggedIn()` is false, the user map and the file
are what they were; a second `logout()` changes nothing more, and `logout()` on
a logged-out object changes nothing and writes nothing. -/
theorem C19_logout_idempotent (a : Authentication) :
    (a.logout).1.currentUser = []
      ∧ (a.logout).1.isLoggedIn = false
      ∧ (a.logout).1.users = a.users
      ∧ (a.logout).1.file = a.file
      ∧ ((a.logout).1.logout).1 = (a.logout).1
      ∧ (a.isLoggedIn = false → a.logout = (a, [])) := by
  by_cases h : a.currentUser = []
  · have hl : a.logout = (a, []) := by simp [Authentication.logout, h]
    rw [hl]
    refine ⟨h, ?_, rfl, rfl, ?_, fun _ => rfl⟩
    · simp [Authentication.isLoggedIn, h]
    · show (a.logout).1 = a
      rw [hl]
  · have hl : a.logout = (⟨a.users, a.file, a.writable, []⟩,
        ascii "Goodbye, " ++ a.currentUser ++ ascii "!\n") := by
      simp [Authentication.logout, h]
    rw [hl]
    refine ⟨rfl, rfl, rfl, rfl, rfl, ?_⟩
    intro hn
    simp [Authentication.isLoggedIn, h] at hn

/-- C19 at an object with `alice` logged in, and at one with nobody logged
in. -/
theorem C19_logout_idempotent_witness :
    ((Authentication.mk sampleUsers none true alice).logout).1
        = Authentication.mk sampleUsers none true []
      ∧ (Authentication.mk sampleUsers none true []).logout
        = (Authentication.mk sampleUsers none true [], []) :=
  ⟨by decide, (C19_logout_idempotent (Authentication.mk sampleUsers none true [])).2.2.2.2.2
    (by decide)⟩

/-- C20. Credential store round trip: for every user map (any usernames and
tokens, empty ones included; string lengths and record count fitting
`size_t`), `saveUsers` on a writable file returns true, and `loadUsers` on the
bytes it wrote, whatever the map of the loading object was, returns true and
yields exactly the saved map. -/
theorem C20_credential_round_trip (m m₀ : StrMap Str) (file : Option (List Byte))
    (cur cur₀ : Str) (w : Bool) (hm : UsersOK m) (hsz : m.size < 2 ^ 64) :
    (Authentication.saveUsers ⟨m, file, true, cur⟩).1 = true
      ∧ Authentication.loadUsers
          ⟨m₀, (Authentication.saveUsers ⟨m, file, true, cur⟩).2.file, w, cur₀⟩
        = some (true, ⟨m, (Authentication.saveUsers ⟨m, file, true, cur⟩).2.file, w, cur₀⟩) := by
  have hs : Authentication.saveUsers ⟨m, file, true, cur⟩
      = (true, ⟨m, some (userSnapshot m), true, cur⟩) := rfl
  rw [hs]
  exact ⟨rfl, loadUsers_userSnapshot m m₀ w cur₀ hm hsz⟩

/-- C20 at `sampleUsers`, loaded into an object with an empty map. -/
theorem C20_credential_round_trip_witness :
    Authentication.loadUsers
        ⟨StrMap.empty, (Authentication.saveUsers ⟨sampleUsers, none, true, []⟩).2.file, false, []⟩
      = some (true,
          ⟨sampleUsers, (Authentication.saveUsers ⟨sampleUsers, none, true, []⟩).2.file,
            false, []⟩) :=
  (C20_credential_round_trip sampleUsers StrMap.empty none [] [] false
    (by decide) (by decide)).2

/-- C21. Order is by key, not by insertion: for every store and every two
products `p` and `q` with distinct productIDs that each pass the checks of
`addProduct` on that store, adding `p` then `q` and adding `q` then `p` both
succeed and end in the same state, map and file content alike; and for every
store `saveToFile` writes the count and then the records in the order of the
entry list, which is strictly ascending by key, and by productID wherever the
keys are the productIDs. -/
theorem C21_order_by_key (inv : Inventory) (p q : Product)
    (hne : p.productID ≠ q.productID)
    (hp : (inv.addProduct p).1 = true) (hq : (inv.addProduct q).1 = true) :
    ((inv.addProduct p).2.addProduct q).1 = true
      ∧ ((inv.addProduct q).2.addProduct p).1 = true
      ∧ ((inv.addProduct p).2.addProduct q).2 = ((inv.addProduct q).2.addProduct p).2
      ∧ ((inv.addProduct p).2.addProduct q).2.saveToFile
          = ((inv.addProduct q).2.addProduct p).2.saveToFile
      ∧ (∀ i : Inventory, i.writable = true →
          i.saveToFile.2.file = some (toLE 8 i.products.size ++ serializeAll i.products.entries)
            ∧ i.products.entries.Pairwise (fun a b => a.1 < b.1)
            ∧ (KeysAreIDs i.products →
                i.products.entries.Pairwise (fun a b => a.2.productID < b.2.productID))) := by
  obtain ⟨pf, pi, pn⟩ := addProduct_of_true hp
  obtain ⟨qf, qi, qn⟩ := addProduct_of_true hq
  have e1 := addProduct_ok pf pi pn
  have e2 := addProduct_ok qf qi qn
  have qf' : (inv.addProduct p).2.products.find q.productID = none := by
    rw [e1]
    exact (findEntry_insertEntry_ne p _ (Ne.symm hne)).trans qf
  have pf' : (inv.addProduct q).2.products.find p.productID = none := by
    rw [e2]
    exact (findEntry_insertEntry_ne q _ hne).trans pf
  have e3 := addProduct_ok qf' qi qn
  have e4 := addProduct_ok pf' pi pn
  have hmap : ((inv.products.insert p.productID p).insert q.productID q)
      = ((inv.products.insert q.productID q).insert p.productID p) :=
    StrMap.ext (insertEntry_comm p q inv.products.sorted hne)
  have hstate : ((inv.addProduct p).2.addProduct q).2 = ((inv.addProduct q).2.addProduct p).2 := by
    rw [e3, e4, e1, e2]
    simp only [hmap]
    cases inv.writable <;> simp
  refine ⟨by rw [e3], by rw [e4], hstate, by rw [hstate], ?_⟩
  intro i hi
  refine ⟨saveToFile_file_of_writable i hi, i.products.sorted, ?_⟩
  intro hk
  refine List.Pairwise.imp_of_mem ?_ i.products.sorted
  intro a b ha hb hab
  rw [hk a ha, hk b hb]
  exact hab

/-- C21 at the sample store and the products `C` and `B`: either order gives
the store with the keys `A`, `B`, `C` in that order. -/
theorem C21_order_by_key_witness :
    ((sampleInventory.addProduct ⟨[121], [67], 1, twoAndAHalf⟩).2.addProduct
        ⟨[120], [66], 3, ⟨0⟩⟩).2
      = ((sampleInventory.addProduct ⟨[120], [66], 3, ⟨0⟩⟩).2.addProduct
        ⟨[121], [67], 1, twoAndAHalf⟩).2
      ∧ (((sampleInventory.addProduct ⟨[121], [67], 1, twoAndAHalf⟩).2.addProduct
        ⟨[120], [66], 3, ⟨0⟩⟩).2.products.entries.map (fun e => e.1)) = [[65], [66], [67]] :=
  ⟨(C21_order_by_key sampleInventory ⟨[121], [67], 1, twoAndAHalf⟩ ⟨[120], [66], 3, ⟨0⟩⟩
      (by decide) (by decide) (by decide)).2.2.1,
    by decide⟩

/-- C22. On-disk layout: every record encoding written by `serialize` is, in
this order, the 8-byte length of the name, the name bytes with nothing after
them, the 8-byte length of the productID, the productID bytes, the 4-byte
quantity and the 8-byte price, which makes `28 + |name| + |productID|` bytes;
and for every store with `n` records on a writable file `saveToFile` returns
true and the file then holds 8 bytes that decode to `n` (`n` fitting
`size_t`), followed by the `n` record encodings in entry order and nothing
else, `8 + sum over the records of (28 + |name| + |productID|)` bytes in
all. -/
theorem C22_on_disk_layout :
    (∀ p : Product,
        p.serialize
            = toLE 8 p.name.length ++ (p.name ++ (toLE 8 p.productID.length
                ++ (p.productID ++ (toLE 4 (int32Bits p.quantity) ++ toLE 8 p.price.bits))))
          ∧ (toLE 8 p.name.length).length = 8
          ∧ (toLE 8 p.productID.length).length = 8
          ∧ (toLE 4 (int32Bits p.quantity)).length = 4
          ∧ (toLE 8 p.price.bits).length = 8
          ∧ p.serialize.length = 28 + p.name.length + p.productID.length)
      ∧ (∀ inv : Inventory, inv.writable = true →
          inv.saveToFile.1 = true
            ∧ inv.saveToFile.2.file
                = some (toLE 8 inv.products.size
                    ++ (inv.products.entries.map (fun e => e.2.serialize)).flatten)
            ∧ (inv.products.entries.map (fun e => e.2.serialize)).length = inv.products.size
            ∧ (inv.products.size < 2 ^ 64 →
                fromLE ((snapshot inv.products).take 8) = inv.products.size)
            ∧ (snapshot inv.products).length
                = 8 + (inv.products.entries.map
                    (fun e => 28 + e.2.name.length + e.2.productID.length)).sum) := by
  have hflat : ∀ l : List (Str × Product),
      serializeAll l = (l.map (fun e => e.2.serialize)).flatten := by
    intro l
    induction l with
    | nil => rfl
    | cons e t ih => simp [serializeAll, ih]
  refine ⟨?_, ?_⟩
  · intro p
    refine ⟨?_, toLE_length _ _, toLE_length _ _, toLE_length _ _, toLE_length _ _,
      serialize_length p⟩
    simp [Product.serialize, List.append_assoc]
  · intro inv hw
    refine ⟨by simp [Inventory.saveToFile, hw], ?_, ?_, ?_, ?_⟩
    · rw [saveToFile_file_of_writable inv hw, snapshot, hflat]
    · simp [StrMap.size]
    · intro hsz
      have ht : (snapshot inv.products).take 8 = toLE 8 inv.products.size := by
        unfold snapshot
        rw [List.take_append_of_le_length (by rw [toLE_length]), List.take_of_length_le]
        rw [toLE_length]
      rw [ht]
      exact fromLE_toLE_of_lt 8 _ (by simpa using hsz)
    · simp only [snapshot, List.length_append, toLE_length, serializeAll_length]

/-- C22 at the sample store: one record named `n` with ID `A`, so 8 + 30
bytes, the first 8 of which decode to 1. -/
theorem C22_on_disk_layout_witness :
    sampleInventory.saveToFile.1 = true
      ∧ (snapshot sampleInventory.products).length = 38
      ∧ fromLE ((snapshot sampleInventory.products).take 8) = 1 :=
  have h := C22_on_disk_layout.2 sampleInventory (by decide)
  ⟨h.1, h.2.2.2.2.trans (by decide), (h.2.2.2.1 (by decide)).trans (by decide)⟩

/-- C23. Key/ID agreement invariant: in every product store reached from the
empty store, or from the result of `loadFromFile` into an empty store on any
file content (present or not, well-formed or not), by any sequence of
`addProduct`, `updateProduct` and `deleteProduct` calls with any arguments,
every map key equals the productID of the record stored under it; so the
record `searchByID(id)` returns there, if any, has productID `id`. -/
theorem C23_key_id_agreement (file : Option (List Byte)) (w : Bool) (ops : List Op) :
    KeysAreIDs (run ⟨StrMap.empty, file, w⟩ ops).products
      ∧ KeysAreIDs (run (Inventory.loadFromFile ⟨StrMap.empty, file, w⟩).2 ops).products
      ∧ (∀ id p, ((run ⟨StrMap.empty, file, w⟩ ops).searchByID id).1 = some p →
          p.productID = id)
      ∧ (∀ id p,
          ((run (Inventory.loadFromFile ⟨StrMap.empty, file, w⟩).2 ops).searchByID id).1
              = some p →
            p.productID = id) := by
  have h0 : KeysAreIDs (Inventory.mk StrMap.empty file w).products := by
    intro e he
    simp [StrMap.empty] at he
  have h1 := run_keysAreIDs ops _ h0
  have h2 := run_keysAreIDs ops _ (loadFromFile_keysAreIDs _ h0)
  refine ⟨h1, h2, ?_, ?_⟩
  · intro id p hs
    rw [searchByID_fst] at hs
    exact h1 (id, p) (mem_of_findEntry hs)
  · intro id p hs
    rw [searchByID_fst] at hs
    exact h2 (id, p) (mem_of_findEntry hs)

/-- C23 at `brokenFile` followed by `sampleOps`: the load fails after two
records, and the record found under `A` afterwards has productID `A`. -/
theorem C23_key_id_agreement_witness :
    (Inventory.loadFromFile ⟨StrMap.empty, some brokenFile, true⟩).1 = false
      ∧ ((run (Inventory.loadFromFile ⟨StrMap.empty, some brokenFile, true⟩).2
            sampleOps).searchByID [65]).1
          = some ⟨[122, 122], [65], 7, twoAndAHalf⟩
      ∧ (Product.mk [122, 122] [65] 7 twoAndAHalf).productID = [65] :=
  ⟨by decide, by decide,
    (C23_key_id_agreement (some brokenFile) true sampleOps).2.2.2 [65]
      ⟨[122, 122], [65], 7, twoAndAHalf⟩ (by decide)⟩

/-- C24. A successful login is always visible as logged in: in every
credential store reached from the empty user map by any sequence of
`registerUser` calls every stored username is non-empty, and so whenever
`login(u, p)` returns true there, `isLoggedIn()` is true afterwards and
`getCurrentUser()` is `u`. -/
theorem C24_login_visible (hasher : Str → Nat) (file : Option (List Byte)) (w : Bool)
    (cur : Str) (calls : List (Str × Str)) :
    (∀ e ∈ (registerAll hasher ⟨StrMap.empty, file, w, cur⟩ calls).users.entries, e.1 ≠ [])
      ∧ (∀ u p,
          (Authentication.login hasher
              (registerAll hasher ⟨StrMap.empty, file, w, cur⟩ calls) u p).result = true →
            (Authentication.login hasher
              (registerAll hasher ⟨StrMap.empty, file, w, cur⟩ calls) u p).auth.isLoggedIn = true
            ∧ (Authentication.login hasher
              (registerAll hasher ⟨StrMap.empty, file, w, cur⟩ calls) u p).auth.getCurrentUser
                = u) := by
  have hne := registerAll_names_nonempty hasher calls ⟨StrMap.empty, file, w, cur⟩
    (by intro e he; simp [StrMap.empty] at he)
  refine ⟨hne, ?_⟩
  intro u p hres
  have hlog := login_cases hasher (registerAll hasher ⟨StrMap.empty, file, w, cur⟩ calls) u p
  have hfind := hlog.1.mp hres
  have hu : u ≠ [] := hne (u, _) (mem_of_findEntry hfind)
  rw [hlog.2.1 hres]
  refine ⟨?_, rfl⟩
  cases u with
  | nil => exact absurd rfl hu
  | cons c t => rfl

/-- C24 after three `registerUser` calls, the second with an empty username
and the third with a password that is too short: `alice` is the only account,
and logging in as `alice` shows as logged in. -/
theorem C24_login_visible_witness :
    (registerAll sampleHasher sampleAuth
        [(alice, secret1), ([], secret1), ([98, 111, 98], [120])]).users.entries.map
          (fun e => e.1) = [alice]
      ∧ (Authentication.login sampleHasher
          (registerAll sampleHasher sampleAuth
            [(alice, secret1), ([], secret1), ([98, 111, 98], [120])])
          alice secret1).auth.isLoggedIn = true
      ∧ (Authentication.login sampleHasher
          (registerAll sampleHasher sampleAuth
            [(alice, secret1), ([], secret1), ([98, 111, 98], [120])])
          alice secret1).auth.getCurrentUser = alice :=
  ⟨by decide,
    (C24_login_visible sampleHasher none true []
      [(alice, secret1), ([], secret1), ([98, 111, 98], [120])]).2 alice secret1 (by decide)⟩

end IMS
